import Mathlib

/-!
Verification development for the nilla-utils repository.

The Go sources under internal/tui (build_reporter.go, copy_reporter.go,
tui.go), internal/exec together with the SSH executor, and the nix command
wrapper are shallowly embedded below.  Go values are mapped as follows:

* int64 ids and byte counters become Int (the quantities involved are far
  from the 64-bit boundary, so wrap-around is irrelevant to the claims);
* time.Time / time.Duration become Int nanoseconds;
* map[int64]V becomes an association list MapL V whose insert replaces an
  existing key in place, mirroring Go map update; Go's nondeterministic
  range order is refined to list order (first element = first inserted);
* Go strings are modelled as Lean String, ASCII store paths make the
  byte/char distinction immaterial;
* Go code that can panic (slicing a short string) returns Option, with
  none standing for the panic;
* bubbletea commands produced by Update are returned as data (Cmd below).
-/

/-- MapL is the embedding of Go map[int64]V as an association list. -/
abbrev MapL (V : Type) := List (Int × V)

/-- mlookup mirrors Go map indexing v, ok := m[k]. -/
def mlookup {V : Type} : MapL V → Int → Option V
  | [], _ => none
  | (k, v) :: rest, i => if k = i then some v else mlookup rest i

/-- minsert mirrors Go map assignment m[k] = v (replace in place or append). -/
def minsert {V : Type} : MapL V → Int → V → MapL V
  | [], i, v => [(i, v)]
  | (k, w) :: rest, i, v =>
      if k = i then (i, v) :: rest else (k, w) :: minsert rest i v

/-- merase mirrors Go delete(m, k). -/
def merase {V : Type} : MapL V → Int → MapL V
  | [], _ => []
  | (k, v) :: rest, i =>
      if k = i then merase rest i else (k, v) :: merase rest i

/-- mfirstKey is the first key yielded by a Go range loop that returns
immediately, refined to the list order of the embedding. -/
def mfirstKey {V : Type} : MapL V → Option Int
  | [] => none
  | (k, _) :: _ => some k

/-- mfirstKeyNe is a Go range loop returning the first key different from c. -/
def mfirstKeyNe {V : Type} : MapL V → Int → Option Int
  | [], _ => none
  | (k, _) :: rest, c => if k = c then mfirstKeyNe rest c else some k

/-- misEmpty mirrors len(m) < 1. -/
def misEmpty {V : Type} (xs : MapL V) : Bool := xs.isEmpty

theorem mlookup_minsert_self {V : Type} (xs : MapL V) (i : Int) (v : V) :
    mlookup (minsert xs i v) i = some v := by
  induction xs with
  | nil => simp [minsert, mlookup]
  | cons p rest ih =>
      obtain ⟨k, w⟩ := p
      by_cases h : k = i <;> simp [minsert, mlookup, h, ih]

theorem mlookup_minsert_ne {V : Type} (xs : MapL V) (i j : Int) (v : V)
    (h : j ≠ i) : mlookup (minsert xs i v) j = mlookup xs j := by
  induction xs with
  | nil => simp [minsert, mlookup, Ne.symm h]
  | cons p rest ih =>
      obtain ⟨k, w⟩ := p
      by_cases hk : k = i
      · subst hk
        simp [minsert, mlookup, Ne.symm h]
      · simp [minsert, mlookup, hk, ih]

theorem mlookup_merase_ne {V : Type} (xs : MapL V) (i j : Int) (h : j ≠ i) :
    mlookup (merase xs i) j = mlookup xs j := by
  induction xs with
  | nil => simp [merase]
  | cons p rest ih =>
      obtain ⟨k, w⟩ := p
      by_cases hk : k = i
      · subst hk
        simp [merase, mlookup, Ne.symm h, ih]
      · simp [merase, mlookup, hk, ih]

theorem mlookup_merase_self {V : Type} (xs : MapL V) (i : Int) :
    mlookup (merase xs i) i = none := by
  induction xs with
  | nil => simp [merase, mlookup]
  | cons p rest ih =>
      obtain ⟨k, w⟩ := p
      by_cases hk : k = i <;> simp [merase, mlookup, hk, ih]

theorem merase_of_lookup_none {V : Type} (xs : MapL V) (i : Int)
    (h : mlookup xs i = none) : merase xs i = xs := by
  induction xs with
  | nil => simp [merase]
  | cons p rest ih =>
      obtain ⟨k, w⟩ := p
      by_cases hk : k = i
      · subst hk; simp [mlookup] at h
      · simp [mlookup, hk] at h
        simp [merase, hk, ih h]

theorem mlookup_isSome_of_mfirstKey {V : Type} (xs : MapL V) (k : Int)
    (h : mfirstKey xs = some k) : (mlookup xs k).isSome = true := by
  cases xs with
  | nil => simp [mfirstKey] at h
  | cons p rest =>
      obtain ⟨k0, w⟩ := p
      simp [mfirstKey] at h
      subst h
      simp [mlookup]

theorem mfirstKey_none_iff {V : Type} (xs : MapL V) :
    mfirstKey xs = none ↔ xs = [] := by
  cases xs with
  | nil => simp [mfirstKey]
  | cons p rest => simp [mfirstKey]

theorem mfirstKeyNe_spec {V : Type} (xs : MapL V) (c k : Int)
    (h : mfirstKeyNe xs c = some k) :
    k ≠ c ∧ (mlookup xs k).isSome = true := by
  induction xs with
  | nil => simp [mfirstKeyNe] at h
  | cons p rest ih =>
      obtain ⟨k0, w⟩ := p
      by_cases hk : k0 = c
      · simp [mfirstKeyNe, hk] at h
        obtain ⟨hne, hsome⟩ := ih h
        refine ⟨hne, ?_⟩
        have : k0 ≠ k := by
          intro hh
          exact hne (by rw [← hh, hk])
        simp [mlookup, this, hsome]
      · simp [mfirstKeyNe, hk] at h
        subst h
        exact ⟨hk, by simp [mlookup]⟩

theorem mfirstKeyNe_none_keys {V : Type} (xs : MapL V) (c : Int)
    (h : mfirstKeyNe xs c = none) : ∀ p ∈ xs, p.1 = c := by
  induction xs with
  | nil => simp
  | cons p rest ih =>
      obtain ⟨k0, w⟩ := p
      by_cases hk : k0 = c
      · simp [mfirstKeyNe, hk] at h
        intro q hq
        rcases List.mem_cons.mp hq with hq | hq
        · subst hq; exact hk
        · exact ih h q hq
      · simp [mfirstKeyNe, hk] at h

theorem mlookup_none_keys {V : Type} (xs : MapL V) (c : Int)
    (h : mlookup xs c = none) : ∀ p ∈ xs, p.1 ≠ c := by
  induction xs with
  | nil => simp
  | cons p rest ih =>
      obtain ⟨k0, w⟩ := p
      by_cases hk : k0 = c
      · subst hk; simp [mlookup] at h
      · simp [mlookup, hk] at h
        intro q hq
        rcases List.mem_cons.mp hq with hq | hq
        · subst hq; exact hk
        · exact ih h q hq

/-- every map whose keys all equal c while c itself is not present is empty. -/
theorem map_empty_of_keys_eq {V : Type} (xs : MapL V) (c : Int)
    (hall : ∀ p ∈ xs, p.1 = c) (hc : mlookup xs c = none) : xs = [] := by
  cases xs with
  | nil => rfl
  | cons p rest =>
      obtain ⟨k0, w⟩ := p
      have hk0 : k0 = c := hall (k0, w) (by simp)
      subst hk0
      simp [mlookup] at hc

theorem mlookup_isSome_iff_exists {V : Type} (xs : MapL V) (i : Int) :
    (mlookup xs i).isSome = true ↔ ∃ v, mlookup xs i = some v := by
  cases h : mlookup xs i <;> simp [h]

theorem mlookup_of_mem_ne_nil {V : Type} (xs : MapL V) (hne : xs ≠ []) :
    ∃ k, (mlookup xs k).isSome = true := by
  cases xs with
  | nil => exact absurd rfl hne
  | cons p rest =>
      obtain ⟨k0, w⟩ := p
      exact ⟨k0, by simp [mlookup]⟩

/-- minFeatureDuration is tui.go's 100 * time.Millisecond, in nanoseconds. -/
def minFeatureDuration : Int := 100000000

/-- progress mirrors tui.go's progress struct. -/
structure progress where
  id : Int := 0
  done : Int := 0
  expected : Int := 0
  running : Int := 0
deriving Repr, DecidableEq

/-- transfer mirrors tui.go's transfer struct. -/
structure transfer where
  id : Int := 0
  done : Int := 0
  expected : Int := 0
deriving Repr, DecidableEq

/-- copyEntry mirrors tui.go's copy struct (renamed: copy would shadow library names). -/
structure copyEntry where
  name : String
  done : Int := 0
  total : Int := 0
deriving Repr, DecidableEq

/-- buildEntry mirrors build_reporter.go's build struct. -/
structure buildEntry where
  name : String
  phase : String := ""
deriving Repr, DecidableEq

/-- NixEvent is the tagged union of decoded events from the nix package,
reconstructed from how the reporters consume them. -/
inductive NixEvent where
  | startCopyPaths (id : Int)
  | startBuilds (id : Int)
  | startRealise (id : Int)
  | startCopyPath (id : Int) (path : String) (text : String)
  | startFileTransfer (id : Int) (parent : Int)
  | startBuild (id : Int) (path : String)
  | stop (id : Int)
  | resultSetPhase (id : Int) (phase : String)
  | resultProgress (id : Int) (done : Int) (expected : Int) (running : Int)
  | resultSetExpectedFileTransfer (id : Int) (expected : Int)
  | resultSetExpectedCopyPath (id : Int) (expected : Int)
  | resultBuildLogLine (id : Int) (text : String)
  | message (level : Int) (text : String)
deriving Repr, DecidableEq

/-- TCmd is the data form of the tea.Cmd values the reporters emit. -/
inductive TCmd where
  | feature (id : Int) (kind : String)
  | println (text : String)
  | printf (text : String)
  | tick
deriving Repr, DecidableEq

/-- extractName is build_reporter.go's p[44:]; none is the Go panic on a
path shorter than 44 bytes. -/
def extractName (p : String) : Option String :=
  if 44 ≤ p.data.length then some (String.mk (p.data.drop 44)) else none

/-- trimSuffix mirrors strings.TrimSuffix. -/
def trimSuffix (s suf : String) : String :=
  if suf.data <:+ s.data then String.mk (s.data.take (s.data.length - suf.data.length))
  else s

/-- listIsPrefix decides whether the first list is a prefix of the second. -/
def listIsPrefix : List Char → List Char → Bool
  | [], _ => true
  | _ :: _, [] => false
  | a :: as, b :: bs => a == b && listIsPrefix as bs

/-- listInfix decides whether pat occurs as a contiguous run (Go
strings.Contains semantics: the empty pattern is contained everywhere). -/
def listInfix (pat : List Char) : List Char → Bool
  | [] => pat.isEmpty
  | b :: bs => listIsPrefix pat (b :: bs) || listInfix pat bs

/-- containsSubstr mirrors strings.Contains. -/
def containsSubstr (s pat : String) : Bool := listInfix pat.data s.data

/-- isTraceWarning is the trace-warning detection inlined in
buildModel.handleMessageEvent. -/
def isTraceWarning (text : String) : Bool :=
  listIsPrefix "trace: ".data text.data && containsSubstr text "warning:"

/-- msgLevelError is nix.MsgLevelError; the protocol's level 0 denotes an error. -/
def msgLevelError : Int := 0

/-- msgLevelWarning is nix.MsgLevelWarning (level 1). -/
def msgLevelWarning : Int := 1

/-- fmtBytesPair abstracts util.ConvertBytes's float rendering with an exact
integer rendering; no claim depends on the rendered digits. -/
def fmtBytesPair (done total : Int) : String :=
  "[" ++ toString done ++ "/" ++ toString total ++ " B]"

/-- render for copyEntry mirrors the copy String method of tui.go. -/
def copyEntry.render (c : copyEntry) : String :=
  if 0 < c.total then c.name ++ " " ++ fmtBytesPair c.done c.total else c.name

/-- render for buildEntry mirrors the build String method of build_reporter.go. -/
def buildEntry.render (b : buildEntry) : String :=
  if b.phase ≠ "" then b.name ++ " [" ++ b.phase ++ "]" else b.name

/-- trimSpaceAnsi abstracts util.TrimSpaceAnsi (whitespace/ANSI trimming of a
printed line; no claim depends on it). -/
def trimSpaceAnsi (s : String) : String := s.trim

/-- buildModel mirrors build_reporter.go's buildModel; the spinner field is
omitted (pure animation state never read by any handler). -/
structure buildModel where
  verbose : Bool
  initialized : Bool := false
  buildProgress : progress := {}
  copyPathsProgress : progress := {}
  realiseProgress : transfer := {}
  downloads : MapL copyEntry := []
  transfers : MapL Int := []
  builds : MapL buildEntry := []
  lastMsg : String := ""
  errs : List String := []
  featuredID : Int := 0
  featuredKind : String := ""
  featuredSince : Int := 0
  rotationPending : Bool := false
deriving Repr, DecidableEq

/-- initBuildModel mirrors build_reporter.go's initBuildModel. -/
def initBuildModel (verbose : Bool) : buildModel :=
  { verbose := verbose, lastMsg := "Initializing build..." }

/-- errorResult mirrors buildModel.error: errors.Join of the accumulated
errors, nil when none; the joined error is modelled as the list of texts. -/
def buildModel.errorResult (m : buildModel) : Option (List String) :=
  if m.errs = [] then none else some m.errs

/-- selectNextActive mirrors buildModel.selectNextActive, with Go's map range
order refined to the association-list order. -/
def buildModel.selectNextActive (m : buildModel) : Option (Int × String) :=
  let currentID := m.featuredID
  if m.featuredKind = "download" then
    match mfirstKey m.builds with
    | some id => some (id, "build")
    | none =>
        match mfirstKeyNe m.downloads currentID with
        | some id => some (id, "download")
        | none =>
            if (mlookup m.downloads currentID).isSome then some (currentID, "download")
            else none
  else
    match mfirstKey m.downloads with
    | some id => some (id, "download")
    | none =>
        match mfirstKeyNe m.builds currentID with
        | some id => some (id, "build")
        | none =>
            if m.featuredKind = "build" then
              if (mlookup m.builds currentID).isSome then some (currentID, "build")
              else none
            else
              if (mlookup m.downloads currentID).isSome then some (currentID, "download")
              else none

/-- isFeaturedActive mirrors buildModel.isFeaturedActive. -/
def buildModel.isFeaturedActive (m : buildModel) : Bool :=
  if m.featuredKind = "build" then (mlookup m.builds m.featuredID).isSome
  else (mlookup m.downloads m.featuredID).isSome

/-- formatFeaturedItem mirrors buildModel.formatFeaturedItem. -/
def buildModel.formatFeaturedItem (m : buildModel) : String :=
  if m.featuredKind = "build" then
    match mlookup m.builds m.featuredID with
    | some b => b.render
    | none => ""
  else
    match mlookup m.downloads m.featuredID with
    | some d => d.render
    | none => ""

/-- handleStartEvent mirrors buildModel.handleStartEvent; none is the panic
of extractName on a short store path. -/
def buildModel.handleStartEvent (m : buildModel) (e : NixEvent) :
    Option (buildModel × List TCmd) :=
  match e with
  | .startCopyPaths id =>
      some ({ m with copyPathsProgress := { id := id }, initialized := true }, [])
  | .startBuilds id =>
      some ({ m with buildProgress := { id := id }, initialized := true }, [])
  | .startRealise id =>
      some ({ m with realiseProgress := { id := id } }, [])
  | .startCopyPath id path text =>
      match extractName path with
      | none => none
      | some nm =>
          let m1 := { m with downloads := minsert m.downloads id { name := nm } }
          if m1.featuredID = 0 then some (m1, [TCmd.feature id "download"])
          else if m1.verbose then some (m1, [TCmd.println text])
          else some (m1, [])
  | .startFileTransfer id parent =>
      if (mlookup m.downloads parent).isSome then
        some ({ m with transfers := minsert m.transfers id parent }, [])
      else some (m, [])
  | .startBuild id path =>
      match extractName path with
      | none => none
      | some nm =>
          let m1 := { m with builds := minsert m.builds id { name := trimSuffix nm ".drv" } }
          if m1.featuredID = 0 then some (m1, [TCmd.feature id "build"])
          else some (m1, [])
  | _ => some (m, [])

/-- stopRemove is the first phase of buildModel.handleStopEvent: removal from
the tracking maps and the realise byte roll-up. -/
def buildModel.stopRemove (m : buildModel) (id : Int) : buildModel :=
  let m1 := { m with builds := merase m.builds id, transfers := merase m.transfers id }
  match mlookup m1.downloads id with
  | some d =>
      { m1 with
        realiseProgress :=
          { m1.realiseProgress with done := m1.realiseProgress.done + d.total },
        downloads := merase m1.downloads id }
  | none => m1

/-- clearIfDone is the final message-clearing step of handleStopEvent. -/
def buildModel.clearIfDone (m : buildModel) : buildModel :=
  if m.initialized && misEmpty m.builds && misEmpty m.downloads then
    { m with lastMsg := "" }
  else m

/-- stopFeatureHandle is the featured-rotation tail of handleStopEvent,
applied to the state m2 left by stopRemove; the some-branch is Go's early
return that skips clearIfDone. -/
def buildModel.stopFeatureHandle (m2 : buildModel) (id : Int) :
    buildModel × List TCmd :=
  if m2.featuredID = id then
    match m2.selectNextActive with
    | some (nid, nkind) => (m2, [TCmd.feature nid nkind])
    | none =>
        (({ m2 with featuredID := 0,
                    lastMsg := if m2.verbose then m2.lastMsg else "" }
            : buildModel).clearIfDone, [])
  else (m2.clearIfDone, [])

/-- handleStopEvent mirrors buildModel.handleStopEvent. -/
def buildModel.handleStopEvent (m : buildModel) (id : Int) : buildModel × List TCmd :=
  buildModel.stopFeatureHandle (m.stopRemove id) id

/-- handleResultEvent mirrors buildModel.handleResultEvent. -/
def buildModel.handleResultEvent (m : buildModel) (e : NixEvent) :
    buildModel × List TCmd :=
  match e with
  | .resultSetPhase id phase =>
      match mlookup m.builds id with
      | none => (m, [])
      | some b =>
          let b1 := { b with phase := phase }
          let m1 := { m with builds := minsert m.builds id b1 }
          if m1.featuredID = id ∧ m1.featuredKind = "build" then
            ({ m1 with lastMsg := b1.render }, [])
          else (m1, [])
  | .resultProgress id done expected running =>
      if id = m.copyPathsProgress.id then
        ({ m with copyPathsProgress :=
              { id := id, done := done, expected := expected, running := running } }, [])
      else if id = m.buildProgress.id then
        ({ m with buildProgress :=
              { id := id, done := done, expected := expected, running := running } }, [])
      else
        match mlookup m.transfers id with
        | none => (m, [])
        | some parent =>
            match mlookup m.downloads parent with
            | none => (m, [])
            | some d =>
                let d1 := { d with done := done, total := expected }
                let m1 := { m with downloads := minsert m.downloads parent d1 }
                if m1.featuredID = parent ∧ m1.featuredKind = "download" then
                  ({ m1 with lastMsg := d1.render }, [])
                else (m1, [])
  | .resultSetExpectedFileTransfer id expected =>
      if id = m.realiseProgress.id then
        ({ m with realiseProgress := { m.realiseProgress with expected := expected } }, [])
      else (m, [])
  | .resultBuildLogLine id text =>
      if m.verbose then
        match mlookup m.builds id with
        | some b => (m, [TCmd.printf (b.name ++ "> " ++ text)])
        | none => (m, [])
      else (m, [])
  | _ => (m, [])

/-- handleMessageEvent mirrors buildModel.handleMessageEvent. -/
def buildModel.handleMessageEvent (m : buildModel) (level : Int) (text : String) :
    buildModel × List TCmd :=
  if level = msgLevelError ∧ isTraceWarning text = false then
    ({ m with errs := m.errs ++ [text] }, [])
  else if m.verbose = true ∨ level = msgLevelWarning ∨ isTraceWarning text = true then
    (m, [TCmd.printf (trimSpaceAnsi text)])
  else ({ m with lastMsg := text }, [])

/-- handleEvent mirrors buildModel.handleEvent's dispatch on Action(). -/
def buildModel.handleEvent (m : buildModel) (e : NixEvent) :
    Option (buildModel × List TCmd) :=
  match e with
  | .stop id => some (m.handleStopEvent id)
  | .message level text => some (m.handleMessageEvent level text)
  | .resultSetPhase _ _ => some (m.handleResultEvent e)
  | .resultProgress _ _ _ _ => some (m.handleResultEvent e)
  | .resultSetExpectedFileTransfer _ _ => some (m.handleResultEvent e)
  | .resultSetExpectedCopyPath _ _ => some (m.handleResultEvent e)
  | .resultBuildLogLine _ _ => some (m.handleResultEvent e)
  | _ => m.handleStartEvent e

/-- applyFeature is the featureMsg case of buildModel.Update. -/
def buildModel.applyFeature (m : buildModel) (id : Int) (kind : String) (t : Int) :
    buildModel :=
  let m1 := { m with featuredID := id, featuredKind := kind, featuredSince := t }
  { m1 with lastMsg := m1.formatFeaturedItem }

/-- rotationCore is the dwell-check-and-rotate block of buildModel.Update's
rotationCheckMsg case (lines guarded by the minimum-hold-time test). -/
def buildModel.rotationCore (m : buildModel) (now : Int) : buildModel :=
  if m.featuredID ≠ 0 ∧ minFeatureDuration ≤ now - m.featuredSince then
    match m.selectNextActive with
    | some (nid, nkind) =>
        let mr := { m with featuredID := nid, featuredKind := nkind,
                           featuredSince := now }
        { mr with lastMsg := mr.formatFeaturedItem }
    | none =>
        if m.isFeaturedActive = false then
          { m with featuredID := 0,
                   lastMsg := if m.verbose then m.lastMsg else "" }
        else m
  else m

/-- scheduleAfterRotation is the rescheduling tail of the rotationCheckMsg
case: a new tick is scheduled only while work remains. -/
def buildModel.scheduleAfterRotation (m1 : buildModel) : buildModel × List TCmd :=
  if misEmpty m1.builds = false ∨ misEmpty m1.downloads = false then
    ({ m1 with rotationPending := true }, [TCmd.tick])
  else (m1, [])

/-- handleRotationCheck is the rotationCheckMsg case of buildModel.Update:
clear the pending flag, run rotationCore, reschedule while work remains. -/
def buildModel.handleRotationCheck (m : buildModel) (now : Int) :
    buildModel × List TCmd :=
  buildModel.scheduleAfterRotation
    (buildModel.rotationCore { m with rotationPending := false } now)

/-- TMsg is the message alphabet of the build reporter's Update loop
(spinner ticks omitted: they touch only the omitted spinner field). -/
inductive TMsg where
  | nev (e : NixEvent)
  | rotationCheck (now : Int)
  | featureMsg (id : Int) (kind : String) (at_ : Int)
deriving Repr, DecidableEq

/-- update mirrors buildModel.Update. -/
def buildModel.update (m : buildModel) (msg : TMsg) : Option (buildModel × List TCmd) :=
  match msg with
  | .rotationCheck now => some (m.handleRotationCheck now)
  | .featureMsg id kind t => some (m.applyFeature id kind t, [])
  | .nev e => m.handleEvent e

/-- copyModel mirrors copy_reporter.go's copyModel (spinner omitted as above). -/
structure copyModel where
  verbose : Bool
  w : Int := 0
  h : Int := 0
  initialized : Bool := false
  copyPathsProgress : progress := {}
  transferProgress : transfer := {}
  copies : MapL copyEntry := []
  transfers : MapL Int := []
  lastMsg : String := ""
  err : Option String := none
  featuredID : Int := 0
  featuredSince : Int := 0
  rotationPending : Bool := false
deriving Repr, DecidableEq

/-- initCopyModel mirrors copy_reporter.go's initCopyModel. -/
def initCopyModel (verbose : Bool) : copyModel :=
  { verbose := verbose, lastMsg := "Initializing..." }

/-- errorResult mirrors copyModel.error: the single retained error. -/
def copyModel.errorResult (m : copyModel) : Option String := m.err

/-- selectNextActive mirrors copyModel.selectNextActive. -/
def copyModel.selectNextActive (m : copyModel) : Option Int :=
  match mfirstKeyNe m.copies m.featuredID with
  | some id => some id
  | none =>
      if (mlookup m.copies m.featuredID).isSome then some m.featuredID else none

/-- formatFeaturedItem mirrors copyModel.formatFeaturedItem. -/
def copyModel.formatFeaturedItem (m : copyModel) : String :=
  match mlookup m.copies m.featuredID with
  | some c => c.render
  | none => ""

/-- handleStartEvent mirrors copyModel.handleStartEvent (total: the copy
reporter displays the raw path and never slices it). -/
def copyModel.handleStartEvent (m : copyModel) (e : NixEvent) :
    copyModel × List TCmd :=
  match e with
  | .startCopyPaths id =>
      ({ m with copyPathsProgress := { id := id },
                transferProgress := { id := id },
                initialized := true }, [])
  | .startCopyPath id path text =>
      let m1 := { m with copies := minsert m.copies id { name := path } }
      if m1.featuredID = 0 then (m1, [TCmd.feature id ""])
      else if m1.verbose then (m1, [TCmd.println text])
      else (m1, [])
  | .startFileTransfer id parent =>
      if (mlookup m.copies parent).isSome then
        ({ m with transfers := minsert m.transfers id parent }, [])
      else (m, [])
  | _ => (m, [])

/-- clearIfDone is copyModel.handleStopEvent's final message-clearing step. -/
def copyModel.clearIfDone (m : copyModel) : copyModel :=
  if m.initialized && misEmpty m.copies then { m with lastMsg := "" } else m

/-- stopTail is the part of copyModel.handleStopEvent after the copies-map
branch: transfer cleanup, featured rotation, message clearing. -/
def copyModel.stopTail (m : copyModel) (id : Int) : copyModel × List TCmd :=
  let m1 := { m with transfers := merase m.transfers id }
  if m1.featuredID = id then
    match m1.selectNextActive with
    | some nid => (m1, [TCmd.feature nid ""])
    | none =>
        let m2 := { m1 with featuredID := 0,
                            lastMsg := if m1.verbose then m1.lastMsg else "" }
        (m2.clearIfDone, [])
  else (m1.clearIfDone, [])

/-- handleStopEvent mirrors copyModel.handleStopEvent, including the verbose
early return that skips transfer cleanup, rotation and message clearing. -/
def copyModel.handleStopEvent (m : copyModel) (id : Int) : copyModel × List TCmd :=
  match mlookup m.copies id with
  | some c =>
      let m1 := { m with
        transferProgress :=
          { m.transferProgress with done := m.transferProgress.done + c.total },
        copies := merase m.copies id }
      if m1.verbose then
        ({ m1 with lastMsg := "" }, [TCmd.printf ("✓ " ++ c.name)])
      else m1.stopTail id
  | none => m.stopTail id

/-- updateCopy is the shared tail of the ResultProgressEvent transfer branch;
key is the copies-map key holding the updated entry and evID the event's ID.
Go's pointer comparison c == m.copies[m.featuredID] is the key comparison
m.featuredID = key (each entry is a distinct allocation). -/
def copyModel.updateCopy (m : copyModel) (evID key : Int) (c : copyEntry)
    (done expected : Int) : copyModel × List TCmd :=
  let c1 := { c with done := done, total := expected }
  let m1 := { m with copies := minsert m.copies key c1 }
  if m1.featuredID = evID ∨ m1.featuredID = key then
    ({ m1 with lastMsg := c1.render }, [])
  else (m1, [])

/-- handleResultEvent mirrors copyModel.handleResultEvent. -/
def copyModel.handleResultEvent (m : copyModel) (e : NixEvent) :
    copyModel × List TCmd :=
  match e with
  | .resultProgress id done expected running =>
      if id = m.copyPathsProgress.id then
        let cp := m.copyPathsProgress
        ({ m with copyPathsProgress :=
            { cp with done := done, expected := expected, running := running } }, [])
      else
        match mlookup m.copies id with
        | some c => m.updateCopy id id c done expected
        | none =>
            match mlookup m.transfers id with
            | some parent =>
                match mlookup m.copies parent with
                | none => (m, [])
                | some c => m.updateCopy id parent c done expected
            | none => (m, [])
  | .resultSetExpectedCopyPath id expected =>
      if id = m.transferProgress.id then
        ({ m with transferProgress :=
            { m.transferProgress with expected := expected } }, [])
      else (m, [])
  | _ => (m, [])

/-- handleMessageEvent mirrors copyModel.handleMessageEvent: an error-level
message overwrites err, keeping only the most recent one. -/
def copyModel.handleMessageEvent (m : copyModel) (level : Int) (text : String) :
    copyModel × List TCmd :=
  if level = 0 then ({ m with err := some text }, [])
  else if m.verbose then (m, [TCmd.printf text])
  else ({ m with lastMsg := text }, [])

/-- handleEvent mirrors copyModel.handleEvent's dispatch on Action(). -/
def copyModel.handleEvent (m : copyModel) (e : NixEvent) : copyModel × List TCmd :=
  match e with
  | .stop id => m.handleStopEvent id
  | .message level text => m.handleMessageEvent level text
  | .resultSetPhase _ _ => m.handleResultEvent e
  | .resultProgress _ _ _ _ => m.handleResultEvent e
  | .resultSetExpectedFileTransfer _ _ => m.handleResultEvent e
  | .resultSetExpectedCopyPath _ _ => m.handleResultEvent e
  | .resultBuildLogLine _ _ => m.handleResultEvent e
  | _ => m.handleStartEvent e

/-- applyFeature is the featureMsg case of copyModel.Update (the kind field
is carried by the message but unused by the copy reporter). -/
def copyModel.applyFeature (m : copyModel) (id : Int) (t : Int) : copyModel :=
  let m1 := { m with featuredID := id, featuredSince := t }
  { m1 with lastMsg := m1.formatFeaturedItem }

/-- rotationCore is the dwell-check-and-rotate block of copyModel.Update's
rotationCheckMsg case. -/
def copyModel.rotationCore (m : copyModel) (now : Int) : copyModel :=
  if m.featuredID ≠ 0 ∧ minFeatureDuration ≤ now - m.featuredSince then
    match m.selectNextActive with
    | some nid =>
        let mr := { m with featuredID := nid, featuredSince := now }
        { mr with lastMsg := mr.formatFeaturedItem }
    | none =>
        if (mlookup m.copies m.featuredID).isSome = false then
          { m with featuredID := 0,
                   lastMsg := if m.verbose then m.lastMsg else "" }
        else m
  else m

/-- scheduleAfterRotation is the rescheduling tail of copyModel's
rotationCheckMsg case. -/
def copyModel.scheduleAfterRotation (m1 : copyModel) : copyModel × List TCmd :=
  if misEmpty m1.copies = false then
    ({ m1 with rotationPending := true }, [TCmd.tick])
  else (m1, [])

/-- handleRotationCheck is the rotationCheckMsg case of copyModel.Update. -/
def copyModel.handleRotationCheck (m : copyModel) (now : Int) :
    copyModel × List TCmd :=
  copyModel.scheduleAfterRotation
    (copyModel.rotationCore { m with rotationPending := false } now)

/-- SyncMsg is the external message alphabet used for whole-run reasoning:
decoder events (with the wall-clock instant t at which any feature command
they emit is executed) and rotation ticks. -/
inductive SyncMsg where
  | nev (e : NixEvent) (t : Int)
  | rotationCheck (now : Int)
deriving Repr, DecidableEq

/-- deliverFeatures executes emitted feature commands immediately at time t
(the synchronous-delivery semantics of the bubbletea command). -/
def buildModel.deliverFeatures (m : buildModel) (cmds : List TCmd) (t : Int) :
    buildModel :=
  cmds.foldl
    (fun acc c =>
      match c with
      | TCmd.feature id kind => acc.applyFeature id kind t
      | _ => acc) m

/-- syncStep processes one message under synchronous feature delivery. -/
def buildModel.syncStep (m : buildModel) (s : SyncMsg) : Option buildModel :=
  match s with
  | .nev e t => (m.handleEvent e).map (fun r => buildModel.deliverFeatures r.1 r.2 t)
  | .rotationCheck now => some (m.handleRotationCheck now).1

/-- runSync folds syncStep over a message list (none on an extractName panic). -/
def buildModel.runSync (m : buildModel) : List SyncMsg → Option buildModel
  | [] => some m
  | s :: rest =>
      match m.syncStep s with
      | none => none
      | some m1 => m1.runSync rest

/-- deliverFeatures for the copy model. -/
def copyModel.deliverFeatures (m : copyModel) (cmds : List TCmd) (t : Int) :
    copyModel :=
  cmds.foldl
    (fun acc c =>
      match c with
      | TCmd.feature id _ => acc.applyFeature id t
      | _ => acc) m

/-- syncStep for the copy model (total: nothing in it can panic). -/
def copyModel.syncStep (m : copyModel) (s : SyncMsg) : copyModel :=
  match s with
  | .nev e t =>
      let r := m.handleEvent e
      copyModel.deliverFeatures r.1 r.2 t
  | .rotationCheck now => (m.handleRotationCheck now).1

/-- runSync for the copy model. -/
def copyModel.runSync (m : copyModel) : List SyncMsg → copyModel
  | [] => m
  | s :: rest => (m.syncStep s).runSync rest

theorem mem_minsert {V : Type} (xs : MapL V) (i : Int) (v : V) (p : Int × V)
    (h : p ∈ minsert xs i v) : p ∈ xs ∨ p = (i, v) := by
  induction xs with
  | nil => simp [minsert] at h; right; exact h
  | cons q rest ih =>
      obtain ⟨k, w⟩ := q
      by_cases hk : k = i
      · simp [minsert, hk] at h
        rcases h with h | h
        · right; exact h
        · left; exact List.mem_cons_of_mem _ h
      · simp only [minsert, if_neg hk] at h
        rcases List.mem_cons.mp h with h | h
        · left; exact h ▸ List.mem_cons_self _ _
        · rcases ih h with h | h
          · left; exact List.mem_cons_of_mem _ h
          · right; exact h

theorem mem_merase {V : Type} (xs : MapL V) (i : Int) (p : Int × V)
    (h : p ∈ merase xs i) : p ∈ xs := by
  induction xs with
  | nil => simp [merase] at h
  | cons q rest ih =>
      obtain ⟨k, w⟩ := q
      by_cases hk : k = i
      · simp only [merase, if_pos hk] at h
        exact List.mem_cons_of_mem _ (ih h)
      · simp only [merase, if_neg hk] at h
        rcases List.mem_cons.mp h with h | h
        · exact h ▸ List.mem_cons_self _ _
        · exact List.mem_cons_of_mem _ (ih h)

theorem mem_of_mlookup {V : Type} (xs : MapL V) (i : Int) (v : V)
    (h : mlookup xs i = some v) : (i, v) ∈ xs := by
  induction xs with
  | nil => simp [mlookup] at h
  | cons q rest ih =>
      obtain ⟨k, w⟩ := q
      by_cases hk : k = i
      · subst hk
        simp [mlookup] at h
        subst h
        exact List.mem_cons_self _ _
      · simp [mlookup, hk] at h
        exact List.mem_cons_of_mem _ (ih h)

theorem mlookup_minsert_isSome {V : Type} (xs : MapL V) (i j : Int) (v : V)
    (h : (mlookup xs j).isSome = true) :
    (mlookup (minsert xs i v) j).isSome = true := by
  by_cases hj : j = i
  · subst hj
    simp [mlookup_minsert_self]
  · rw [mlookup_minsert_ne xs i j v hj]
    exact h

/-- keysNZ states that no tracked id is the 0 sentinel. -/
def keysNZ {V : Type} (xs : MapL V) : Prop := ∀ p ∈ xs, p.1 ≠ (0 : Int)

theorem keysNZ_nil {V : Type} : keysNZ ([] : MapL V) := by
  intro p hp; simp at hp

theorem keysNZ_minsert {V : Type} (xs : MapL V) (i : Int) (v : V)
    (hxs : keysNZ xs) (hi : i ≠ 0) : keysNZ (minsert xs i v) := by
  intro p hp
  rcases mem_minsert xs i v p hp with h | h
  · exact hxs p h
  · subst h; exact hi

theorem keysNZ_merase {V : Type} (xs : MapL V) (i : Int)
    (hxs : keysNZ xs) : keysNZ (merase xs i) := by
  intro p hp
  exact hxs p (mem_merase xs i p hp)

theorem keysNZ_lookup_ne_zero {V : Type} (xs : MapL V) (i : Int)
    (hxs : keysNZ xs) (h : (mlookup xs i).isSome = true) : i ≠ 0 := by
  rcases (mlookup_isSome_iff_exists xs i).mp h with ⟨v, hv⟩
  exact hxs (i, v) (mem_of_mlookup xs i v hv)

theorem applyFeature_builds (m : buildModel) (id : Int) (kind : String) (t : Int) :
    (m.applyFeature id kind t).builds = m.builds := rfl

theorem applyFeature_downloads (m : buildModel) (id : Int) (kind : String) (t : Int) :
    (m.applyFeature id kind t).downloads = m.downloads := rfl

theorem applyFeature_featuredID (m : buildModel) (id : Int) (kind : String) (t : Int) :
    (m.applyFeature id kind t).featuredID = id := rfl

theorem applyFeature_featuredKind (m : buildModel) (id : Int) (kind : String) (t : Int) :
    (m.applyFeature id kind t).featuredKind = kind := rfl

theorem applyFeature_featuredSince (m : buildModel) (id : Int) (kind : String) (t : Int) :
    (m.applyFeature id kind t).featuredSince = t := rfl

theorem clearIfDone_eq_fields (m : buildModel) :
    (buildModel.clearIfDone m).builds = m.builds ∧
    (buildModel.clearIfDone m).downloads = m.downloads ∧
    (buildModel.clearIfDone m).featuredID = m.featuredID ∧
    (buildModel.clearIfDone m).featuredKind = m.featuredKind := by
  unfold buildModel.clearIfDone
  split <;> exact ⟨rfl, rfl, rfl, rfl⟩

theorem stopRemove_builds (m : buildModel) (id : Int) :
    (m.stopRemove id).builds = merase m.builds id := by
  unfold buildModel.stopRemove
  cases hl : mlookup m.downloads id <;> simp [hl]

theorem stopRemove_downloads (m : buildModel) (id : Int) :
    (m.stopRemove id).downloads = merase m.downloads id := by
  unfold buildModel.stopRemove
  cases hl : mlookup m.downloads id <;> simp [hl]
  exact (merase_of_lookup_none m.downloads id hl).symm

theorem stopRemove_featured (m : buildModel) (id : Int) :
    (m.stopRemove id).featuredID = m.featuredID ∧
    (m.stopRemove id).featuredKind = m.featuredKind := by
  unfold buildModel.stopRemove
  cases hl : mlookup m.downloads id <;> simp [hl]

/-- selectNextActive only returns ids present in the corresponding map, with
kind build or download. -/
theorem selectNextActive_some_spec (m : buildModel) (nid : Int) (k : String)
    (h : m.selectNextActive = some (nid, k)) :
    (k = "build" ∧ (mlookup m.builds nid).isSome = true) ∨
    (k = "download" ∧ (mlookup m.downloads nid).isSome = true) := by
  unfold buildModel.selectNextActive at h
  by_cases hk : m.featuredKind = "download"
  · rw [if_pos hk] at h
    cases hfb : mfirstKey m.builds with
    | some id0 =>
        rw [hfb] at h
        injection h with h1
        injection h1 with ha hb
        subst ha; subst hb
        exact Or.inl ⟨rfl, mlookup_isSome_of_mfirstKey m.builds id0 hfb⟩
    | none =>
        rw [hfb] at h
        cases hfn : mfirstKeyNe m.downloads m.featuredID with
        | some id1 =>
            rw [hfn] at h
            injection h with h1
            injection h1 with ha hb
            subst ha; subst hb
            exact Or.inr ⟨rfl, (mfirstKeyNe_spec m.downloads m.featuredID id1 hfn).2⟩
        | none =>
            rw [hfn] at h
            by_cases hcur : (mlookup m.downloads m.featuredID).isSome = true
            · rw [if_pos hcur] at h
              injection h with h1
              injection h1 with ha hb
              subst hb
              rw [← ha]
              exact Or.inr ⟨rfl, hcur⟩
            · rw [if_neg hcur] at h
              simp at h
  · rw [if_neg hk] at h
    cases hfd : mfirstKey m.downloads with
    | some id0 =>
        rw [hfd] at h
        injection h with h1
        injection h1 with ha hb2
        subst ha; subst hb2
        exact Or.inr ⟨rfl, mlookup_isSome_of_mfirstKey m.downloads id0 hfd⟩
    | none =>
        rw [hfd] at h
        cases hfn : mfirstKeyNe m.builds m.featuredID with
        | some id1 =>
            rw [hfn] at h
            injection h with h1
            injection h1 with ha hb2
            subst ha; subst hb2
            exact Or.inl ⟨rfl, (mfirstKeyNe_spec m.builds m.featuredID id1 hfn).2⟩
        | none =>
            rw [hfn] at h
            by_cases hb : m.featuredKind = "build"
            · rw [if_pos hb] at h
              by_cases hcur : (mlookup m.builds m.featuredID).isSome = true
              · rw [if_pos hcur] at h
                injection h with h1
                injection h1 with ha hb2
                subst hb2
                rw [← ha]
                exact Or.inl ⟨rfl, hcur⟩
              · rw [if_neg hcur] at h
                simp at h
            · rw [if_neg hb] at h
              by_cases hcur : (mlookup m.downloads m.featuredID).isSome = true
              · rw [if_pos hcur] at h
                injection h with h1
                injection h1 with ha hb2
                subst hb2
                rw [← ha]
                exact Or.inr ⟨rfl, hcur⟩
              · rw [if_neg hcur] at h
                simp at h

/-- selectNextActive fails only when both tracking maps are empty, provided
the featured kind is one of the two real kinds. -/
theorem selectNextActive_none_spec (m : buildModel)
    (hkind : m.featuredKind = "build" ∨ m.featuredKind = "download")
    (h : m.selectNextActive = none) : m.builds = [] ∧ m.downloads = [] := by
  unfold buildModel.selectNextActive at h
  by_cases hk : m.featuredKind = "download"
  · rw [if_pos hk] at h
    cases hfb : mfirstKey m.builds with
    | some id0 => rw [hfb] at h; simp at h
    | none =>
        rw [hfb] at h
        have hbe : m.builds = [] := (mfirstKey_none_iff m.builds).mp hfb
        cases hfn : mfirstKeyNe m.downloads m.featuredID with
        | some id1 => rw [hfn] at h; simp at h
        | none =>
            rw [hfn] at h
            by_cases hcur : (mlookup m.downloads m.featuredID).isSome = true
            · rw [if_pos hcur] at h; simp at h
            · refine ⟨hbe, ?_⟩
              have hnone : mlookup m.downloads m.featuredID = none := by
                cases hl : mlookup m.downloads m.featuredID with
                | none => rfl
                | some v => rw [hl] at hcur; simp at hcur
              exact map_empty_of_keys_eq m.downloads m.featuredID
                (mfirstKeyNe_none_keys m.downloads m.featuredID hfn) hnone
  · rw [if_neg hk] at h
    have hb : m.featuredKind = "build" := by
      rcases hkind with hkind | hkind
      · exact hkind
      · exact absurd hkind hk
    cases hfd : mfirstKey m.downloads with
    | some id0 => rw [hfd] at h; simp at h
    | none =>
        rw [hfd] at h
        have hde : m.downloads = [] := (mfirstKey_none_iff m.downloads).mp hfd
        cases hfn : mfirstKeyNe m.builds m.featuredID with
        | some id1 => rw [hfn] at h; simp at h
        | none =>
            rw [hfn] at h
            rw [if_pos hb] at h
            by_cases hcur : (mlookup m.builds m.featuredID).isSome = true
            · rw [if_pos hcur] at h; simp at h
            · refine ⟨?_, hde⟩
              have hnone : mlookup m.builds m.featuredID = none := by
                cases hl : mlookup m.builds m.featuredID with
                | none => rfl
                | some v => rw [hl] at hcur; simp at hcur
              exact map_empty_of_keys_eq m.builds m.featuredID
                (mfirstKeyNe_none_keys m.builds m.featuredID hfn) hnone

/-- msgOK requires the ids of events that create displayable items to differ
from the reporter's 0 sentinel, as nix's activity-id allocation guarantees. -/
def msgOK : SyncMsg → Prop
  | .nev (NixEvent.startCopyPath id _ _) _ => id ≠ 0
  | .nev (NixEvent.startBuild id _) _ => id ≠ 0
  | _ => True

/-- Inv is the featured-item invariant of the build reporter under
synchronous feature delivery. -/
def buildModel.Inv (m : buildModel) : Prop :=
  (m.featuredID = 0 → m.builds = [] ∧ m.downloads = []) ∧
  (m.featuredID ≠ 0 → m.isFeaturedActive = true ∧
      (m.featuredKind = "build" ∨ m.featuredKind = "download")) ∧
  keysNZ m.builds ∧ keysNZ m.downloads

theorem isFeaturedActive_congr (m m' : buildModel)
    (hb : m'.builds = m.builds) (hd : m'.downloads = m.downloads)
    (hf : m'.featuredID = m.featuredID) (hk : m'.featuredKind = m.featuredKind) :
    m'.isFeaturedActive = m.isFeaturedActive := by
  unfold buildModel.isFeaturedActive
  rw [hb, hd, hf, hk]

theorem selectNextActive_congr (m m' : buildModel)
    (hb : m'.builds = m.builds) (hd : m'.downloads = m.downloads)
    (hf : m'.featuredID = m.featuredID) (hk : m'.featuredKind = m.featuredKind) :
    m'.selectNextActive = m.selectNextActive := by
  unfold buildModel.selectNextActive
  rw [hb, hd, hf, hk]

theorem Inv_frame (m m' : buildModel)
    (hb : m'.builds = m.builds) (hd : m'.downloads = m.downloads)
    (hf : m'.featuredID = m.featuredID) (hk : m'.featuredKind = m.featuredKind)
    (hinv : m.Inv) : m'.Inv := by
  obtain ⟨h1, h2, h3, h4⟩ := hinv
  refine ⟨?_, ?_, ?_, ?_⟩
  · intro h
    rw [hf] at h
    rw [hb, hd]
    exact h1 h
  · intro h
    rw [hf] at h
    rw [isFeaturedActive_congr m m' hb hd hf hk, hk]
    exact h2 h
  · rw [hb]; exact h3
  · rw [hd]; exact h4

theorem deliverFeatures_nil (m : buildModel) (t : Int) :
    buildModel.deliverFeatures m [] t = m := rfl

theorem deliverFeatures_feature (m : buildModel) (id : Int) (k : String) (t : Int) :
    buildModel.deliverFeatures m [TCmd.feature id k] t = m.applyFeature id k t := rfl

theorem deliverFeatures_println (m : buildModel) (s : String) (t : Int) :
    buildModel.deliverFeatures m [TCmd.println s] t = m := rfl

theorem deliverFeatures_printf (m : buildModel) (s : String) (t : Int) :
    buildModel.deliverFeatures m [TCmd.printf s] t = m := rfl

theorem Inv_applyFeature (m : buildModel) (id : Int) (k : String) (t : Int)
    (hid : id ≠ 0)
    (hact : (k = "build" ∧ (mlookup m.builds id).isSome = true) ∨
            (k = "download" ∧ (mlookup m.downloads id).isSome = true))
    (hb : keysNZ m.builds) (hd : keysNZ m.downloads) :
    (m.applyFeature id k t).Inv := by
  refine ⟨?_, ?_, hb, hd⟩
  · intro h
    rw [applyFeature_featuredID] at h
    exact absurd h hid
  · intro _
    constructor
    · unfold buildModel.isFeaturedActive
      rw [applyFeature_featuredKind, applyFeature_featuredID,
          applyFeature_builds, applyFeature_downloads]
      rcases hact with ⟨hk, hs⟩ | ⟨hk, hs⟩
      · rw [if_pos hk]; exact hs
      · subst hk; rw [if_neg (by decide : ¬("download" = "build"))]; exact hs
    · rcases hact with ⟨hk, _⟩ | ⟨hk, _⟩
      · left; rw [applyFeature_featuredKind]; exact hk
      · right; rw [applyFeature_featuredKind]; exact hk

theorem Inv_rotationCore (m : buildModel) (now : Int) (hinv : m.Inv) :
    (m.rotationCore now).Inv := by
  unfold buildModel.Inv at hinv
  obtain ⟨h1, h2, h3, h4⟩ := hinv
  unfold buildModel.rotationCore
  by_cases hc : m.featuredID ≠ 0 ∧ minFeatureDuration ≤ now - m.featuredSince
  · rw [if_pos hc]
    cases hsel : m.selectNextActive with
    | some p =>
        obtain ⟨nid, k⟩ := p
        simp only [hsel]
        have hspec := selectNextActive_some_spec m nid k hsel
        have hnz : nid ≠ 0 := by
          rcases hspec with ⟨_, hs⟩ | ⟨_, hs⟩
          · exact keysNZ_lookup_ne_zero m.builds nid h3 hs
          · exact keysNZ_lookup_ne_zero m.downloads nid h4 hs
        unfold buildModel.Inv
        refine ⟨?_, ?_, h3, h4⟩
        · intro h
          exact absurd h hnz
        · intro _
          constructor
          · show (if k = "build" then (mlookup m.builds nid).isSome
                  else (mlookup m.downloads nid).isSome) = true
            rcases hspec with ⟨hk, hs⟩ | ⟨hk, hs⟩
            · rw [if_pos hk]; exact hs
            · subst hk
              rw [if_neg (by decide : ¬(("download" : String) = "build"))]
              exact hs
          · rcases hspec with ⟨hk, _⟩ | ⟨hk, _⟩
            · left; exact hk
            · right; exact hk
    | none =>
        simp only [hsel]
        by_cases hact : m.isFeaturedActive = false
        · rw [if_pos hact]
          have hkind : m.featuredKind = "build" ∨ m.featuredKind = "download" :=
            (h2 hc.1).2
          have hemp := selectNextActive_none_spec m hkind hsel
          unfold buildModel.Inv
          refine ⟨fun _ => ⟨hemp.1, hemp.2⟩, fun h => absurd rfl h, h3, h4⟩
        · rw [if_neg hact]
          exact ⟨h1, h2, h3, h4⟩
  · rw [if_neg hc]
    exact ⟨h1, h2, h3, h4⟩

theorem Inv_handleRotationCheck (m : buildModel) (now : Int) (hinv : m.Inv) :
    ((m.handleRotationCheck now).1).Inv := by
  unfold buildModel.handleRotationCheck
  have h0 : (({ m with rotationPending := false } : buildModel)).Inv :=
    Inv_frame m _ rfl rfl rfl rfl hinv
  have hcore := Inv_rotationCore _ now h0
  unfold buildModel.scheduleAfterRotation
  split
  · exact Inv_frame _ _ rfl rfl rfl rfl hcore
  · exact hcore

theorem Inv_stop_sync (m : buildModel) (id t : Int) (hinv : m.Inv) :
    (buildModel.deliverFeatures (m.handleStopEvent id).1 (m.handleStopEvent id).2 t).Inv := by
  obtain ⟨h1, h2, h3, h4⟩ := hinv
  have hb2 := stopRemove_builds m id
  have hd2 := stopRemove_downloads m id
  have hf2 := (stopRemove_featured m id).1
  have hk2 := (stopRemove_featured m id).2
  have h3m : keysNZ (m.stopRemove id).builds := by
    rw [hb2]; exact keysNZ_merase m.builds id h3
  have h4m : keysNZ (m.stopRemove id).downloads := by
    rw [hd2]; exact keysNZ_merase m.downloads id h4
  unfold buildModel.handleStopEvent buildModel.stopFeatureHandle
  by_cases hcase : (m.stopRemove id).featuredID = id
  · rw [if_pos hcase]
    cases hsel : (m.stopRemove id).selectNextActive with
    | some p =>
        obtain ⟨nid, k⟩ := p
        simp only [hsel, deliverFeatures_feature]
        have hspec := selectNextActive_some_spec _ nid k hsel
        have hnz : nid ≠ 0 := by
          rcases hspec with ⟨_, hs⟩ | ⟨_, hs⟩
          · exact keysNZ_lookup_ne_zero _ nid h3m hs
          · exact keysNZ_lookup_ne_zero _ nid h4m hs
        exact Inv_applyFeature _ nid k t hnz hspec h3m h4m
    | none =>
        simp only [hsel, deliverFeatures_nil]
        have hemp : (m.stopRemove id).builds = [] ∧ (m.stopRemove id).downloads = [] := by
          by_cases hz : m.featuredID = 0
          · have hid0 : id = 0 := by rw [← hcase, hf2, hz]
            have := h1 hz
            constructor
            · rw [hb2, this.1]; rfl
            · rw [hd2, this.2]; rfl
          · have hkind : (m.stopRemove id).featuredKind = "build" ∨
                (m.stopRemove id).featuredKind = "download" := by
              rw [hk2]; exact (h2 hz).2
            exact selectNextActive_none_spec _ hkind hsel
        apply Inv_frame _ _ (clearIfDone_eq_fields _).1 (clearIfDone_eq_fields _).2.1
          (clearIfDone_eq_fields _).2.2.1 (clearIfDone_eq_fields _).2.2.2
        unfold buildModel.Inv
        refine ⟨fun _ => hemp, fun h => absurd rfl h, h3m, h4m⟩
  · rw [if_neg hcase]
    simp only [deliverFeatures_nil]
    apply Inv_frame _ _ (clearIfDone_eq_fields _).1 (clearIfDone_eq_fields _).2.1
      (clearIfDone_eq_fields _).2.2.1 (clearIfDone_eq_fields _).2.2.2
    unfold buildModel.Inv
    refine ⟨?_, ?_, h3m, h4m⟩
    · intro h
      rw [hf2] at h
      have := h1 h
      constructor
      · rw [hb2, this.1]; rfl
      · rw [hd2, this.2]; rfl
    · intro h
      rw [hf2] at h
      have hact := (h2 h).1
      have hkind := (h2 h).2
      constructor
      · unfold buildModel.isFeaturedActive at hact ⊢
        rw [hb2, hd2, hf2, hk2]
        have hne : m.featuredID ≠ id := by
          intro hh
          exact hcase (by rw [hf2, hh])
        rcases hkind with hk | hk
        · rw [if_pos hk] at hact ⊢
          rw [mlookup_merase_ne m.builds id m.featuredID hne]
          exact hact
        · have hkb : ¬(m.featuredKind = "build") := by
            rw [hk]; decide
          rw [if_neg hkb] at hact ⊢
          rw [mlookup_merase_ne m.downloads id m.featuredID hne]
          exact hact
      · rw [hk2]
        exact hkind

theorem Inv_syncStep (m m1 : buildModel) (s : SyncMsg) (hok : msgOK s)
    (hinv : m.Inv) (hstep : m.syncStep s = some m1) : m1.Inv := by
  obtain ⟨h1, h2, h3, h4⟩ := hinv
  cases s with
  | rotationCheck now =>
      have heq : m.syncStep (.rotationCheck now) = some (m.handleRotationCheck now).1 := rfl
      rw [heq] at hstep
      injection hstep with h
      subst h
      exact Inv_handleRotationCheck m now ⟨h1, h2, h3, h4⟩
  | nev e t =>
      cases e with
      | startCopyPaths id =>
          have heq : m.syncStep (.nev (.startCopyPaths id) t) =
              some { m with copyPathsProgress := { id := id }, initialized := true } := rfl
          rw [heq] at hstep
          injection hstep with h
          subst h
          exact Inv_frame m _ rfl rfl rfl rfl ⟨h1, h2, h3, h4⟩
      | startBuilds id =>
          have heq : m.syncStep (.nev (.startBuilds id) t) =
              some { m with buildProgress := { id := id }, initialized := true } := rfl
          rw [heq] at hstep
          injection hstep with h
          subst h
          exact Inv_frame m _ rfl rfl rfl rfl ⟨h1, h2, h3, h4⟩
      | startRealise id =>
          have heq : m.syncStep (.nev (.startRealise id) t) =
              some { m with realiseProgress := { id := id } } := rfl
          rw [heq] at hstep
          injection hstep with h
          subst h
          exact Inv_frame m _ rfl rfl rfl rfl ⟨h1, h2, h3, h4⟩
      | startCopyPath id path text =>
          have hid : id ≠ 0 := hok
          cases hex : extractName path with
          | none =>
              have heq : m.syncStep (.nev (.startCopyPath id path text) t) = none := by
                simp [buildModel.syncStep, buildModel.handleEvent,
                      buildModel.handleStartEvent, hex]
              rw [heq] at hstep
              cases hstep
          | some nm =>
              have hInvBase :
                  ∀ mb : buildModel, mb.downloads = minsert m.downloads id { name := nm } →
                    mb.builds = m.builds → mb.featuredID = m.featuredID →
                    mb.featuredKind = m.featuredKind → m.featuredID ≠ 0 → mb.Inv := by
                intro mb hdl hbl hfl hkl hnz
                refine ⟨?_, ?_, ?_, ?_⟩
                · intro h; rw [hfl] at h; exact absurd h hnz
                · intro _
                  have hact := (h2 (by rw [hfl] at *; exact hnz)).1
                  have hkind := (h2 (by rw [hfl] at *; exact hnz)).2
                  constructor
                  · unfold buildModel.isFeaturedActive at hact ⊢
                    rw [hdl, hbl, hfl, hkl]
                    rcases hkind with hk | hk
                    · rw [if_pos hk] at hact ⊢; exact hact
                    · have hkb : ¬(m.featuredKind = "build") := by rw [hk]; decide
                      rw [if_neg hkb] at hact ⊢
                      exact mlookup_minsert_isSome m.downloads id m.featuredID _ hact
                  · rw [hkl]; exact hkind
                · rw [hbl]; exact h3
                · rw [hdl]; exact keysNZ_minsert m.downloads id _ h4 hid
              by_cases hf : m.featuredID = 0
              · have heq : m.syncStep (.nev (.startCopyPath id path text) t) =
                    some (({ m with downloads := minsert m.downloads id { name := nm } }
                      : buildModel).applyFeature id "download" t) := by
                  simp [buildModel.syncStep, buildModel.handleEvent,
                        buildModel.handleStartEvent, hex, hf,
                        buildModel.deliverFeatures]
                rw [heq] at hstep
                injection hstep with h
                subst h
                apply Inv_applyFeature _ id "download" t hid
                · refine Or.inr ⟨rfl, ?_⟩
                  show (mlookup (minsert m.downloads id { name := nm }) id).isSome = true
                  rw [mlookup_minsert_self]
                  rfl
                · exact h3
                · exact keysNZ_minsert m.downloads id _ h4 hid
              · by_cases hv : m.verbose = true
                · have heq : m.syncStep (.nev (.startCopyPath id path text) t) =
                      some { m with downloads := minsert m.downloads id { name := nm } } := by
                    simp [buildModel.syncStep, buildModel.handleEvent,
                          buildModel.handleStartEvent, hex, hf, hv,
                          buildModel.deliverFeatures]
                  rw [heq] at hstep
                  injection hstep with h
                  subst h
                  exact hInvBase _ rfl rfl rfl rfl hf
                · have heq : m.syncStep (.nev (.startCopyPath id path text) t) =
                      some { m with downloads := minsert m.downloads id { name := nm } } := by
                    simp [buildModel.syncStep, buildModel.handleEvent,
                          buildModel.handleStartEvent, hex, hf, hv,
                          buildModel.deliverFeatures]
                  rw [heq] at hstep
                  injection hstep with h
                  subst h
                  exact hInvBase _ rfl rfl rfl rfl hf
      | startFileTransfer id parent =>
          by_cases hp : (mlookup m.downloads parent).isSome = true
          · have heq : m.syncStep (.nev (.startFileTransfer id parent) t) =
                some { m with transfers := minsert m.transfers id parent } := by
              simp [buildModel.syncStep, buildModel.handleEvent,
                    buildModel.handleStartEvent, hp, buildModel.deliverFeatures]
            rw [heq] at hstep
            injection hstep with h
            subst h
            exact Inv_frame m _ rfl rfl rfl rfl ⟨h1, h2, h3, h4⟩
          · have heq : m.syncStep (.nev (.startFileTransfer id parent) t) = some m := by
              simp [buildModel.syncStep, buildModel.handleEvent,
                    buildModel.handleStartEvent, hp, buildModel.deliverFeatures]
            rw [heq] at hstep
            injection hstep with h
            subst h
            exact ⟨h1, h2, h3, h4⟩
      | startBuild id path =>
          have hid : id ≠ 0 := hok
          cases hex : extractName path with
          | none =>
              have heq : m.syncStep (.nev (.startBuild id path) t) = none := by
                simp [buildModel.syncStep, buildModel.handleEvent,
                      buildModel.handleStartEvent, hex]
              rw [heq] at hstep
              cases hstep
          | some nm =>
              by_cases hf : m.featuredID = 0
              · have heq : m.syncStep (.nev (.startBuild id path) t) =
                    some (({ m with builds := minsert m.builds id { name := trimSuffix nm ".drv" } } : buildModel).applyFeature id "build" t) := by
                  simp [buildModel.syncStep, buildModel.handleEvent,
                        buildModel.handleStartEvent, hex, hf,
                        buildModel.deliverFeatures]
                rw [heq] at hstep
                injection hstep with h
                subst h
                apply Inv_applyFeature _ id "build" t hid
                · refine Or.inl ⟨rfl, ?_⟩
                  show (mlookup (minsert m.builds id { name := trimSuffix nm ".drv" })
                      id).isSome = true
                  rw [mlookup_minsert_self]
                  rfl
                · exact keysNZ_minsert m.builds id _ h3 hid
                · exact h4
              · have heq : m.syncStep (.nev (.startBuild id path) t) =
                    some { m with builds := minsert m.builds id { name := trimSuffix nm ".drv" } } := by
                  simp [buildModel.syncStep, buildModel.handleEvent,
                        buildModel.handleStartEvent, hex, hf,
                        buildModel.deliverFeatures]
                rw [heq] at hstep
                injection hstep with h
                subst h
                refine ⟨?_, ?_, ?_, h4⟩
                · intro h; exact absurd h hf
                · intro _
                  have hact := (h2 hf).1
                  have hkind := (h2 hf).2
                  constructor
                  · unfold buildModel.isFeaturedActive at hact ⊢
                    show (if m.featuredKind = "build"
                        then (mlookup (minsert m.builds id { name := trimSuffix nm ".drv" })
                            m.featuredID).isSome
                        else (mlookup m.downloads m.featuredID).isSome) = true
                    rcases hkind with hk | hk
                    · rw [if_pos hk] at hact ⊢
                      exact mlookup_minsert_isSome m.builds id m.featuredID _ hact
                    · have hkb : ¬(m.featuredKind = "build") := by rw [hk]; decide
                      rw [if_neg hkb] at hact ⊢
                      exact hact
                  · exact hkind
                · exact keysNZ_minsert m.builds id _ h3 hid
      | stop id =>
          have heq : m.syncStep (.nev (.stop id) t) =
              some (buildModel.deliverFeatures (m.handleStopEvent id).1
                (m.handleStopEvent id).2 t) := rfl
          rw [heq] at hstep
          injection hstep with h
          subst h
          exact Inv_stop_sync m id t ⟨h1, h2, h3, h4⟩
      | resultSetPhase id phase =>
          cases hl : mlookup m.builds id with
          | none =>
              have heq : m.syncStep (.nev (.resultSetPhase id phase) t) = some m := by
                simp [buildModel.syncStep, buildModel.handleEvent,
                      buildModel.handleResultEvent, hl, buildModel.deliverFeatures]
              rw [heq] at hstep
              injection hstep with h
              subst h
              exact ⟨h1, h2, h3, h4⟩
          | some b =>
              have hidnz : id ≠ 0 :=
                keysNZ_lookup_ne_zero m.builds id h3 (by rw [hl]; rfl)
              have hInvIns :
                  ∀ mb : buildModel,
                    mb.builds = minsert m.builds id { b with phase := phase } →
                    mb.downloads = m.downloads → mb.featuredID = m.featuredID →
                    mb.featuredKind = m.featuredKind → mb.Inv := by
                intro mb hbl hdl hfl hkl
                refine ⟨?_, ?_, ?_, ?_⟩
                · intro h
                  rw [hfl] at h
                  have hemp := h1 h
                  rw [hemp.1] at hl
                  cases hl
                · intro h
                  rw [hfl] at h
                  have hact := (h2 h).1
                  have hkind := (h2 h).2
                  constructor
                  · unfold buildModel.isFeaturedActive at hact ⊢
                    rw [hbl, hdl, hfl, hkl]
                    rcases hkind with hk | hk
                    · rw [if_pos hk] at hact ⊢
                      exact mlookup_minsert_isSome m.builds id m.featuredID _ hact
                    · have hkb : ¬(m.featuredKind = "build") := by rw [hk]; decide
                      rw [if_neg hkb] at hact ⊢
                      exact hact
                  · rw [hkl]; exact hkind
                · rw [hbl]
                  exact keysNZ_minsert m.builds id _ h3 hidnz
                · rw [hdl]; exact h4
              by_cases hfk : m.featuredID = id ∧ m.featuredKind = "build"
              · have heq : m.syncStep (.nev (.resultSetPhase id phase) t) =
                    some { m with builds := minsert m.builds id { b with phase := phase },
                                  lastMsg := buildEntry.render { b with phase := phase } } := by
                  simp [buildModel.syncStep, buildModel.handleEvent,
                        buildModel.handleResultEvent, hl, hfk, buildModel.deliverFeatures]
                rw [heq] at hstep
                injection hstep with h
                subst h
                exact hInvIns _ rfl rfl rfl rfl
              · have heq : m.syncStep (.nev (.resultSetPhase id phase) t) =
                    some { m with builds := minsert m.builds id { b with phase := phase } } := by
                  simp [buildModel.syncStep, buildModel.handleEvent,
                        buildModel.handleResultEvent, hl, hfk, buildModel.deliverFeatures]
                rw [heq] at hstep
                injection hstep with h
                subst h
                exact hInvIns _ rfl rfl rfl rfl
      | resultProgress id done expected running =>
          by_cases hcp : id = m.copyPathsProgress.id
          · have heq : m.syncStep (.nev (.resultProgress id done expected running) t) =
                some { m with copyPathsProgress :=
                    { id := id, done := done, expected := expected, running := running } } := by
              simp [buildModel.syncStep, buildModel.handleEvent,
                    buildModel.handleResultEvent, hcp, buildModel.deliverFeatures]
            rw [heq] at hstep
            injection hstep with h
            subst h
            exact Inv_frame m _ rfl rfl rfl rfl ⟨h1, h2, h3, h4⟩
          · by_cases hbp : id = m.buildProgress.id
            · have hcp2 : ¬(m.buildProgress.id = m.copyPathsProgress.id) := by
                rw [← hbp]; exact hcp
              have heq : m.syncStep (.nev (.resultProgress id done expected running) t) =
                  some { m with buildProgress :=
                      { id := id, done := done, expected := expected, running := running } } := by
                simp [buildModel.syncStep, buildModel.handleEvent,
                      buildModel.handleResultEvent, hcp, hcp2, hbp,
                      buildModel.deliverFeatures]
              rw [heq] at hstep
              injection hstep with h
              subst h
              exact Inv_frame m _ rfl rfl rfl rfl ⟨h1, h2, h3, h4⟩
            · cases htr : mlookup m.transfers id with
              | none =>
                  have heq : m.syncStep (.nev (.resultProgress id done expected running) t) =
                      some m := by
                    simp [buildModel.syncStep, buildModel.handleEvent,
                          buildModel.handleResultEvent, hcp, hbp, htr,
                          buildModel.deliverFeatures]
                  rw [heq] at hstep
                  injection hstep with h
                  subst h
                  exact ⟨h1, h2, h3, h4⟩
              | some parent =>
                  cases hdl : mlookup m.downloads parent with
                  | none =>
                      have heq : m.syncStep
                          (.nev (.resultProgress id done expected running) t) = some m := by
                        simp [buildModel.syncStep, buildModel.handleEvent,
                              buildModel.handleResultEvent, hcp, hbp, htr, hdl,
                              buildModel.deliverFeatures]
                      rw [heq] at hstep
                      injection hstep with h
                      subst h
                      exact ⟨h1, h2, h3, h4⟩
                  | some d =>
                      have hpnz : parent ≠ 0 :=
                        keysNZ_lookup_ne_zero m.downloads parent h4 (by rw [hdl]; rfl)
                      have hInvIns :
                          ∀ mb : buildModel,
                            mb.downloads = minsert m.downloads parent
                              { d with done := done, total := expected } →
                            mb.builds = m.builds → mb.featuredID = m.featuredID →
                            mb.featuredKind = m.featuredKind → mb.Inv := by
                        intro mb hdl2 hbl hfl hkl
                        refine ⟨?_, ?_, ?_, ?_⟩
                        · intro h
                          rw [hfl] at h
                          have hemp := h1 h
                          rw [hemp.2] at hdl
                          cases hdl
                        · intro h
                          rw [hfl] at h
                          have hact := (h2 h).1
                          have hkind := (h2 h).2
                          constructor
                          · unfold buildModel.isFeaturedActive at hact ⊢
                            rw [hdl2, hbl, hfl, hkl]
                            rcases hkind with hk | hk
                            · rw [if_pos hk] at hact ⊢; exact hact
                            · have hkb : ¬(m.featuredKind = "build") := by rw [hk]; decide
                              rw [if_neg hkb] at hact ⊢
                              exact mlookup_minsert_isSome m.downloads parent m.featuredID _ hact
                          · rw [hkl]; exact hkind
                        · rw [hbl]; exact h3
                        · rw [hdl2]
                          exact keysNZ_minsert m.downloads parent _ h4 hpnz
                      by_cases hfk : m.featuredID = parent ∧ m.featuredKind = "download"
                      · have heq : m.syncStep
                            (.nev (.resultProgress id done expected running) t) =
                            some { m with downloads := minsert m.downloads parent { d with done := done, total := expected }, lastMsg := copyEntry.render { d with done := done, total := expected } } := by
                          simp [buildModel.syncStep, buildModel.handleEvent,
                                buildModel.handleResultEvent, hcp, hbp, htr, hdl, hfk,
                                buildModel.deliverFeatures]
                        rw [heq] at hstep
                        injection hstep with h
                        subst h
                        exact hInvIns _ rfl rfl rfl rfl
                      · have heq : m.syncStep
                            (.nev (.resultProgress id done expected running) t) =
                            some { m with downloads := minsert m.downloads parent { d with done := done, total := expected } } := by
                          simp [buildModel.syncStep, buildModel.handleEvent,
                                buildModel.handleResultEvent, hcp, hbp, htr, hdl, hfk,
                                buildModel.deliverFeatures]
                        rw [heq] at hstep
                        injection hstep with h
                        subst h
                        exact hInvIns _ rfl rfl rfl rfl
      | resultSetExpectedFileTransfer id expected =>
          by_cases hr : id = m.realiseProgress.id
          · have heq : m.syncStep (.nev (.resultSetExpectedFileTransfer id expected) t) =
                some { m with realiseProgress :=
                    { m.realiseProgress with expected := expected } } := by
              simp [buildModel.syncStep, buildModel.handleEvent,
                    buildModel.handleResultEvent, hr, buildModel.deliverFeatures]
            rw [heq] at hstep
            injection hstep with h
            subst h
            exact Inv_frame m _ rfl rfl rfl rfl ⟨h1, h2, h3, h4⟩
          · have heq : m.syncStep (.nev (.resultSetExpectedFileTransfer id expected) t) =
                some m := by
              simp [buildModel.syncStep, buildModel.handleEvent,
                    buildModel.handleResultEvent, hr, buildModel.deliverFeatures]
            rw [heq] at hstep
            injection hstep with h
            subst h
            exact ⟨h1, h2, h3, h4⟩
      | resultSetExpectedCopyPath id expected =>
          have heq : m.syncStep (.nev (.resultSetExpectedCopyPath id expected) t) =
              some m := rfl
          rw [heq] at hstep
          injection hstep with h
          subst h
          exact ⟨h1, h2, h3, h4⟩
      | resultBuildLogLine id text =>
          by_cases hv : m.verbose = true
          · cases hl : mlookup m.builds id with
            | some b =>
                have heq : m.syncStep (.nev (.resultBuildLogLine id text) t) = some m := by
                  simp [buildModel.syncStep, buildModel.handleEvent,
                        buildModel.handleResultEvent, hv, hl, buildModel.deliverFeatures]
                rw [heq] at hstep
                injection hstep with h
                subst h
                exact ⟨h1, h2, h3, h4⟩
            | none =>
                have heq : m.syncStep (.nev (.resultBuildLogLine id text) t) = some m := by
                  simp [buildModel.syncStep, buildModel.handleEvent,
                        buildModel.handleResultEvent, hv, hl, buildModel.deliverFeatures]
                rw [heq] at hstep
                injection hstep with h
                subst h
                exact ⟨h1, h2, h3, h4⟩
          · have heq : m.syncStep (.nev (.resultBuildLogLine id text) t) = some m := by
              simp [buildModel.syncStep, buildModel.handleEvent,
                    buildModel.handleResultEvent, hv, buildModel.deliverFeatures]
            rw [heq] at hstep
            injection hstep with h
            subst h
            exact ⟨h1, h2, h3, h4⟩
      | message level text =>
          by_cases he : level = msgLevelError ∧ isTraceWarning text = false
          · have heq : m.syncStep (.nev (.message level text) t) =
                some { m with errs := m.errs ++ [text] } := by
              simp [buildModel.syncStep, buildModel.handleEvent,
                    buildModel.handleMessageEvent, he, buildModel.deliverFeatures]
            rw [heq] at hstep
            injection hstep with h
            subst h
            exact Inv_frame m _ rfl rfl rfl rfl ⟨h1, h2, h3, h4⟩
          · by_cases hw : m.verbose = true ∨ level = msgLevelWarning ∨
                isTraceWarning text = true
            · have heq : m.syncStep (.nev (.message level text) t) = some m := by
                simp [buildModel.syncStep, buildModel.handleEvent,
                      buildModel.handleMessageEvent, he, hw, buildModel.deliverFeatures]
              rw [heq] at hstep
              injection hstep with h
              subst h
              exact ⟨h1, h2, h3, h4⟩
            · have heq : m.syncStep (.nev (.message level text) t) =
                  some { m with lastMsg := text } := by
                simp [buildModel.syncStep, buildModel.handleEvent,
                      buildModel.handleMessageEvent, he, hw, buildModel.deliverFeatures]
              rw [heq] at hstep
              injection hstep with h
              subst h
              exact Inv_frame m _ rfl rfl rfl rfl ⟨h1, h2, h3, h4⟩

theorem Inv_initBuildModel (v : Bool) : (initBuildModel v).Inv :=
  ⟨fun _ => ⟨rfl, rfl⟩, fun h => absurd rfl h, keysNZ_nil, keysNZ_nil⟩

theorem Inv_runSync (tr : List SyncMsg) :
    ∀ (m m1 : buildModel), (∀ s ∈ tr, msgOK s) → m.Inv →
      m.runSync tr = some m1 → m1.Inv := by
  induction tr with
  | nil =>
      intro m m1 _ hinv hrun
      unfold buildModel.runSync at hrun
      injection hrun with h
      subst h
      exact hinv
  | cons s rest ih =>
      intro m m1 hok hinv hrun
      unfold buildModel.runSync at hrun
      cases hs : m.syncStep s with
      | none => rw [hs] at hrun; cases hrun
      | some m2 =>
          rw [hs] at hrun
          exact ih m2 m1 (fun x hx => hok x (List.mem_cons_of_mem s hx))
            (Inv_syncStep m m2 s (hok s (List.mem_cons_self s rest)) hinv hs) hrun

/-- Inv for the copy reporter: states reachable in non-verbose mode keep the
featured id in step with the copies map (the verbose stop path returns early
and is excluded, see the C1 analysis). -/
def copyModel.Inv (m : copyModel) : Prop :=
  m.verbose = false ∧
  (m.featuredID = 0 → m.copies = []) ∧
  (m.featuredID ≠ 0 → (mlookup m.copies m.featuredID).isSome = true) ∧
  keysNZ m.copies

theorem copy_selectNextActive_some (m : copyModel) (nid : Int)
    (h : m.selectNextActive = some nid) :
    (mlookup m.copies nid).isSome = true := by
  unfold copyModel.selectNextActive at h
  cases hfn : mfirstKeyNe m.copies m.featuredID with
  | some id0 =>
      rw [hfn] at h
      injection h with h1
      subst h1
      exact (mfirstKeyNe_spec m.copies m.featuredID id0 hfn).2
  | none =>
      rw [hfn] at h
      by_cases hcur : (mlookup m.copies m.featuredID).isSome = true
      · rw [if_pos hcur] at h
        injection h with h1
        rw [← h1]
        exact hcur
      · rw [if_neg hcur] at h
        cases h

theorem copy_selectNextActive_none (m : copyModel)
    (h : m.selectNextActive = none) : m.copies = [] := by
  unfold copyModel.selectNextActive at h
  cases hfn : mfirstKeyNe m.copies m.featuredID with
  | some id0 => rw [hfn] at h; cases h
  | none =>
      rw [hfn] at h
      by_cases hcur : (mlookup m.copies m.featuredID).isSome = true
      · rw [if_pos hcur] at h; cases h
      · have hnone : mlookup m.copies m.featuredID = none := by
          cases hl : mlookup m.copies m.featuredID with
          | none => rfl
          | some v => rw [hl] at hcur; simp at hcur
        exact map_empty_of_keys_eq m.copies m.featuredID
          (mfirstKeyNe_none_keys m.copies m.featuredID hfn) hnone

theorem copy_Inv_frame (m m' : copyModel)
    (hc : m'.copies = m.copies) (hf : m'.featuredID = m.featuredID)
    (hv : m'.verbose = m.verbose) (hinv : m.Inv) : m'.Inv := by
  obtain ⟨h0, h1, h2, h3⟩ := hinv
  refine ⟨?_, ?_, ?_, ?_⟩
  · rw [hv]; exact h0
  · intro h; rw [hf] at h; rw [hc]; exact h1 h
  · intro h; rw [hf] at h; rw [hc, hf]; exact h2 h
  · rw [hc]; exact h3

theorem copy_applyFeature_copies (m : copyModel) (id t : Int) :
    (m.applyFeature id t).copies = m.copies := rfl

theorem copy_applyFeature_featuredID (m : copyModel) (id t : Int) :
    (m.applyFeature id t).featuredID = id := rfl

theorem copy_applyFeature_verbose (m : copyModel) (id t : Int) :
    (m.applyFeature id t).verbose = m.verbose := rfl

theorem copy_Inv_applyFeature (m : copyModel) (id t : Int) (hid : id ≠ 0)
    (hact : (mlookup m.copies id).isSome = true)
    (hv : m.verbose = false) (hkz : keysNZ m.copies) :
    (m.applyFeature id t).Inv := by
  refine ⟨hv, ?_, ?_, hkz⟩
  · intro h; exact absurd h hid
  · intro _; exact hact

theorem copy_clearIfDone_fields (m : copyModel) :
    (m.clearIfDone).copies = m.copies ∧ (m.clearIfDone).featuredID = m.featuredID ∧
    (m.clearIfDone).verbose = m.verbose := by
  unfold copyModel.clearIfDone
  split <;> exact ⟨rfl, rfl, rfl⟩

theorem copy_deliverFeatures_nil (m : copyModel) (t : Int) :
    copyModel.deliverFeatures m [] t = m := rfl

theorem copy_deliverFeatures_feature (m : copyModel) (id : Int) (k : String)
    (t : Int) :
    copyModel.deliverFeatures m [TCmd.feature id k] t = m.applyFeature id t := rfl

/-- stopTail preserves Inv when the stopped id is no longer in the copies map. -/
theorem copy_Inv_stopTail (m2 : copyModel) (id t : Int)
    (_hgone : mlookup m2.copies id = none)
    (hv : m2.verbose = false)
    (h1 : m2.featuredID = 0 → m2.copies = [])
    (h2 : m2.featuredID ≠ 0 → m2.featuredID ≠ id →
        (mlookup m2.copies m2.featuredID).isSome = true)
    (hkz : keysNZ m2.copies) :
    (copyModel.deliverFeatures (m2.stopTail id).1 (m2.stopTail id).2 t).Inv := by
  unfold copyModel.stopTail
  by_cases hcase : m2.featuredID = id
  · rw [if_pos hcase]
    cases hsel : ({ m2 with transfers := merase m2.transfers id }
        : copyModel).selectNextActive with
    | some nid =>
        simp only [hsel, copy_deliverFeatures_feature]
        have hs : (mlookup m2.copies nid).isSome = true :=
          copy_selectNextActive_some _ nid hsel
        exact copy_Inv_applyFeature _ nid t
          (keysNZ_lookup_ne_zero m2.copies nid hkz hs) hs hv hkz
    | none =>
        simp only [hsel, copy_deliverFeatures_nil]
        have hemp : m2.copies = [] := copy_selectNextActive_none _ hsel
        apply copy_Inv_frame _ _ (copy_clearIfDone_fields _).1
          (copy_clearIfDone_fields _).2.1 (copy_clearIfDone_fields _).2.2
        exact ⟨hv, fun _ => hemp, fun h => absurd rfl h, hkz⟩
  · rw [if_neg hcase]
    simp only [copy_deliverFeatures_nil]
    apply copy_Inv_frame _ _ (copy_clearIfDone_fields _).1
      (copy_clearIfDone_fields _).2.1 (copy_clearIfDone_fields _).2.2
    refine ⟨hv, h1, ?_, hkz⟩
    intro h
    exact h2 h hcase

/-- the stop handler preserves Inv for the non-verbose copy reporter. -/
theorem copy_Inv_stop (m : copyModel) (id t : Int) (hinv : m.Inv) :
    (copyModel.deliverFeatures (m.handleStopEvent id).1 (m.handleStopEvent id).2 t).Inv := by
  obtain ⟨h0, h1, h2, h3⟩ := hinv
  unfold copyModel.handleStopEvent
  cases hl : mlookup m.copies id with
  | some c =>
      simp only [hl, h0, if_neg (show ¬(false = true) by decide)]
      apply copy_Inv_stopTail _ id t
      · show mlookup (merase m.copies id) id = none
        exact mlookup_merase_self m.copies id
      · rfl
      · intro h
        show merase m.copies id = []
        rw [h1 h]
        rfl
      · intro h hne
        show (mlookup (merase m.copies id) m.featuredID).isSome = true
        rw [mlookup_merase_ne m.copies id m.featuredID hne]
        exact h2 h
      · exact keysNZ_merase m.copies id h3
  | none =>
      simp only [hl]
      apply copy_Inv_stopTail _ id t hl h0 h1 (fun h _ => h2 h) h3

theorem copy_Inv_rotationCore (m : copyModel) (now : Int) (hinv : m.Inv) :
    (m.rotationCore now).Inv := by
  obtain ⟨h0, h1, h2, h3⟩ := hinv
  unfold copyModel.rotationCore
  by_cases hc : m.featuredID ≠ 0 ∧ minFeatureDuration ≤ now - m.featuredSince
  · rw [if_pos hc]
    cases hsel : m.selectNextActive with
    | some nid =>
        simp only [hsel]
        have hs := copy_selectNextActive_some m nid hsel
        refine ⟨h0, ?_, ?_, h3⟩
        · intro h
          exact absurd h (keysNZ_lookup_ne_zero m.copies nid h3 hs)
        · intro _
          exact hs
    | none =>
        simp only [hsel]
        by_cases hact : (mlookup m.copies m.featuredID).isSome = false
        · rw [if_pos hact]
          have hemp := copy_selectNextActive_none m hsel
          exact ⟨h0, fun _ => hemp, fun h => absurd rfl h, h3⟩
        · rw [if_neg hact]
          exact ⟨h0, h1, h2, h3⟩
  · rw [if_neg hc]
    exact ⟨h0, h1, h2, h3⟩

theorem copy_Inv_handleRotationCheck (m : copyModel) (now : Int) (hinv : m.Inv) :
    ((m.handleRotationCheck now).1).Inv := by
  unfold copyModel.handleRotationCheck
  have hp : (({ m with rotationPending := false } : copyModel)).Inv :=
    copy_Inv_frame _ _ rfl rfl rfl hinv
  have hcore := copy_Inv_rotationCore _ now hp
  unfold copyModel.scheduleAfterRotation
  split
  · exact copy_Inv_frame _ _ rfl rfl rfl hcore
  · exact hcore

theorem copy_deliver_of_nil (m : copyModel) (cs : List TCmd) (t : Int)
    (h : cs = []) : copyModel.deliverFeatures m cs t = m := by
  rw [h]
  rfl

theorem copy_Inv_updateCopy (m : copyModel) (evID key : Int) (c : copyEntry)
    (done expected : Int) (hkey : mlookup m.copies key = some c)
    (hinv : m.Inv) :
    ((m.updateCopy evID key c done expected).1).Inv ∧
    (m.updateCopy evID key c done expected).2 = [] := by
  obtain ⟨h0, h1, h2, h3⟩ := hinv
  have hknz : key ≠ 0 :=
    keysNZ_lookup_ne_zero m.copies key h3 (by rw [hkey]; rfl)
  have hInvm1 : ∀ mb : copyModel,
      mb.copies = minsert m.copies key { c with done := done, total := expected } →
      mb.featuredID = m.featuredID → mb.verbose = m.verbose → mb.Inv := by
    intro mb hc hf hv
    refine ⟨by rw [hv]; exact h0, ?_, ?_, ?_⟩
    · intro h
      rw [hf] at h
      exfalso
      have hemp := h1 h
      rw [hemp] at hkey
      cases hkey
    · intro h
      rw [hf] at h
      rw [hc, hf]
      exact mlookup_minsert_isSome _ _ _ _ (h2 h)
    · rw [hc]
      exact keysNZ_minsert _ _ _ h3 hknz
  unfold copyModel.updateCopy
  dsimp only
  split
  · exact ⟨hInvm1 _ rfl rfl rfl, rfl⟩
  · exact ⟨hInvm1 _ rfl rfl rfl, rfl⟩

theorem copy_Inv_syncStep (m : copyModel) (s : SyncMsg) (hok : msgOK s)
    (hinv : m.Inv) : (m.syncStep s).Inv := by
  obtain ⟨h0, h1, h2, h3⟩ := hinv
  cases s with
  | rotationCheck now =>
      exact copy_Inv_handleRotationCheck m now ⟨h0, h1, h2, h3⟩
  | nev e t =>
      cases e with
      | startCopyPaths id =>
          exact copy_Inv_frame m _ rfl rfl rfl ⟨h0, h1, h2, h3⟩
      | startBuilds id =>
          exact ⟨h0, h1, h2, h3⟩
      | startRealise id =>
          exact ⟨h0, h1, h2, h3⟩
      | startBuild id path =>
          exact ⟨h0, h1, h2, h3⟩
      | startCopyPath id path text =>
          have hid : id ≠ 0 := hok
          by_cases hf : m.featuredID = 0
          · have heq : m.syncStep (.nev (.startCopyPath id path text) t) =
                (({ m with copies := minsert m.copies id { name := path } }
                  : copyModel).applyFeature id t) := by
              simp [copyModel.syncStep, copyModel.handleEvent,
                    copyModel.handleStartEvent, hf, copyModel.deliverFeatures]
            rw [heq]
            apply copy_Inv_applyFeature _ id t hid
            · show (mlookup (minsert m.copies id { name := path }) id).isSome = true
              rw [mlookup_minsert_self]
              rfl
            · exact h0
            · exact keysNZ_minsert m.copies id _ h3 hid
          · have heq : m.syncStep (.nev (.startCopyPath id path text) t) =
                ({ m with copies := minsert m.copies id { name := path } } : copyModel) := by
              simp [copyModel.syncStep, copyModel.handleEvent,
                    copyModel.handleStartEvent, hf, h0, copyModel.deliverFeatures]
            rw [heq]
            refine ⟨h0, ?_, ?_, keysNZ_minsert m.copies id _ h3 hid⟩
            · intro h
              exact absurd h hf
            · intro h
              exact mlookup_minsert_isSome _ _ _ _ (h2 h)
      | startFileTransfer id parent =>
          by_cases hp : (mlookup m.copies parent).isSome = true
          · have heq : m.syncStep (.nev (.startFileTransfer id parent) t) =
                ({ m with transfers := minsert m.transfers id parent } : copyModel) := by
              simp [copyModel.syncStep, copyModel.handleEvent,
                    copyModel.handleStartEvent, hp, copyModel.deliverFeatures]
            rw [heq]
            exact copy_Inv_frame m _ rfl rfl rfl ⟨h0, h1, h2, h3⟩
          · have heq : m.syncStep (.nev (.startFileTransfer id parent) t) = m := by
              simp [copyModel.syncStep, copyModel.handleEvent,
                    copyModel.handleStartEvent, hp, copyModel.deliverFeatures]
            rw [heq]
            exact ⟨h0, h1, h2, h3⟩
      | stop id =>
          exact copy_Inv_stop m id t ⟨h0, h1, h2, h3⟩
      | resultSetPhase id phase =>
          exact ⟨h0, h1, h2, h3⟩
      | resultSetExpectedFileTransfer id expected =>
          exact ⟨h0, h1, h2, h3⟩
      | resultBuildLogLine id text =>
          exact ⟨h0, h1, h2, h3⟩
      | resultSetExpectedCopyPath id expected =>
          by_cases hr : id = m.transferProgress.id
          · have heq : m.syncStep (.nev (.resultSetExpectedCopyPath id expected) t) =
                ({ m with transferProgress :=
                    { m.transferProgress with expected := expected } } : copyModel) := by
              simp [copyModel.syncStep, copyModel.handleEvent,
                    copyModel.handleResultEvent, hr, copyModel.deliverFeatures]
            rw [heq]
            exact copy_Inv_frame m _ rfl rfl rfl ⟨h0, h1, h2, h3⟩
          · have heq : m.syncStep (.nev (.resultSetExpectedCopyPath id expected) t) = m := by
              simp [copyModel.syncStep, copyModel.handleEvent,
                    copyModel.handleResultEvent, hr, copyModel.deliverFeatures]
            rw [heq]
            exact ⟨h0, h1, h2, h3⟩
      | resultProgress id done expected running =>
          by_cases hcp : id = m.copyPathsProgress.id
          · have heq : m.syncStep (.nev (.resultProgress id done expected running) t) =
                ({ m with copyPathsProgress :=
                    { m.copyPathsProgress with done := done, expected := expected, running := running } } : copyModel) := by
              simp [copyModel.syncStep, copyModel.handleEvent,
                    copyModel.handleResultEvent, hcp, copyModel.deliverFeatures]
            rw [heq]
            exact copy_Inv_frame m _ rfl rfl rfl ⟨h0, h1, h2, h3⟩
          · cases hci : mlookup m.copies id with
            | some c =>
                have heq : m.syncStep (.nev (.resultProgress id done expected running) t) =
                    copyModel.deliverFeatures (m.updateCopy id id c done expected).1
                      (m.updateCopy id id c done expected).2 t := by
                  simp [copyModel.syncStep, copyModel.handleEvent,
                        copyModel.handleResultEvent, hcp, hci]
                rw [heq]
                have hup := copy_Inv_updateCopy m id id c done expected hci ⟨h0, h1, h2, h3⟩
                rw [copy_deliver_of_nil _ _ t hup.2]
                exact hup.1
            | none =>
                cases htr : mlookup m.transfers id with
                | some parent =>
                    cases hcp2 : mlookup m.copies parent with
                    | some c =>
                        have heq : m.syncStep
                            (.nev (.resultProgress id done expected running) t) =
                            copyModel.deliverFeatures
                              (m.updateCopy id parent c done expected).1
                              (m.updateCopy id parent c done expected).2 t := by
                          simp [copyModel.syncStep, copyModel.handleEvent,
                                copyModel.handleResultEvent, hcp, hci, htr, hcp2]
                        rw [heq]
                        have hup := copy_Inv_updateCopy m id parent c done expected hcp2
                          ⟨h0, h1, h2, h3⟩
                        rw [copy_deliver_of_nil _ _ t hup.2]
                        exact hup.1
                    | none =>
                        have heq : m.syncStep
                            (.nev (.resultProgress id done expected running) t) = m := by
                          simp [copyModel.syncStep, copyModel.handleEvent,
                                copyModel.handleResultEvent, hcp, hci, htr, hcp2,
                                copyModel.deliverFeatures]
                        rw [heq]
                        exact ⟨h0, h1, h2, h3⟩
                | none =>
                    have heq : m.syncStep
                        (.nev (.resultProgress id done expected running) t) = m := by
                      simp [copyModel.syncStep, copyModel.handleEvent,
                            copyModel.handleResultEvent, hcp, hci, htr,
                            copyModel.deliverFeatures]
                    rw [heq]
                    exact ⟨h0, h1, h2, h3⟩
      | message level text =>
          by_cases hl : level = 0
          · have heq : m.syncStep (.nev (.message level text) t) =
                ({ m with err := some text } : copyModel) := by
              simp [copyModel.syncStep, copyModel.handleEvent,
                    copyModel.handleMessageEvent, hl, copyModel.deliverFeatures]
            rw [heq]
            exact copy_Inv_frame m _ rfl rfl rfl ⟨h0, h1, h2, h3⟩
          · by_cases hv : m.verbose = true
            · rw [h0] at hv
              cases hv
            · have heq : m.syncStep (.nev (.message level text) t) =
                  ({ m with lastMsg := text } : copyModel) := by
                simp [copyModel.syncStep, copyModel.handleEvent,
                      copyModel.handleMessageEvent, hl, hv, copyModel.deliverFeatures]
              rw [heq]
              exact copy_Inv_frame m _ rfl rfl rfl ⟨h0, h1, h2, h3⟩

theorem copy_Inv_runSync (tr : List SyncMsg) :
    ∀ (m : copyModel), (∀ s ∈ tr, msgOK s) → m.Inv → (m.runSync tr).Inv := by
  induction tr with
  | nil =>
      intro m _ hinv
      exact hinv
  | cons s rest ih =>
      intro m hok hinv
      exact ih (m.syncStep s) (fun x hx => hok x (List.mem_cons_of_mem s hx))
        (copy_Inv_syncStep m s (hok s (List.mem_cons_self s rest)) hinv)

theorem copy_Inv_initCopyModel : (initCopyModel false).Inv :=
  ⟨rfl, fun _ => rfl, fun h => absurd rfl h, keysNZ_nil⟩

/-- AsyncStep is one transition of the build reporter when emitted commands
are delivered asynchronously, as bubbletea actually runs them: process a
decoder event (queueing the commands it emits), process a rotation tick, or
deliver one pending feature command at an arbitrary later time. -/
inductive AsyncStep : buildModel × List TCmd → buildModel × List TCmd → Prop where
  | ev (m : buildModel) (pend : List TCmd) (e : NixEvent) (m2 : buildModel)
      (cs : List TCmd) (h : m.handleEvent e = some (m2, cs)) :
      AsyncStep (m, pend) (m2, pend ++ cs)
  | rotation (m : buildModel) (pend : List TCmd) (now : Int) :
      AsyncStep (m, pend)
        ((m.handleRotationCheck now).1, pend ++ (m.handleRotationCheck now).2)
  | deliver (m : buildModel) (l r : List TCmd) (id : Int) (k : String) (t : Int) :
      AsyncStep (m, l ++ TCmd.feature id k :: r) (m.applyFeature id k t, l ++ r)

/-- AsyncReach is reachability of the build reporter from its initial state
under asynchronous command delivery. -/
inductive AsyncReach : buildModel × List TCmd → Prop where
  | init (v : Bool) : AsyncReach (initBuildModel v, [])
  | step (p q : buildModel × List TCmd) (hp : AsyncReach p) (hs : AsyncStep p q) :
      AsyncReach q

/-- storePath47 is a store path of exactly the shape nix emits:
"/nix/store/" (11 bytes) + 32-byte hash + "-" + name. -/
def storePath47 : String := "/nix/store/00000000000000000000000000000000-pkg"

/-- drvPath51 is a derivation store path of the same shape. -/
def drvPath51 : String := "/nix/store/11111111111111111111111111111111-foo.drv"

theorem featured_zero_of_empty (m : buildModel) (hinv : m.Inv)
    (hb : m.builds = []) (hd : m.downloads = []) : m.featuredID = 0 := by
  by_contra h
  have hact := (hinv.2.1 h).1
  unfold buildModel.isFeaturedActive at hact
  rw [hb, hd] at hact
  split at hact <;> simp [mlookup] at hact

theorem copy_featured_zero_of_empty (m : copyModel) (hinv : m.Inv)
    (hc : m.copies = []) : m.featuredID = 0 := by
  by_contra h
  have hact := hinv.2.2.1 h
  rw [hc] at hact
  simp [mlookup] at hact

/-- C1 (as stated, refuted): under the asynchronous command delivery the
code actually uses, the reporter reaches a state in which the active set is
non-empty (one live download) while no item is featured: the Start event has
been processed but its feature command has not yet been delivered. -/
theorem c1_counterexample :
    ∃ p : buildModel × List TCmd, AsyncReach p ∧
      p.1.downloads ≠ [] ∧ p.1.featuredID = 0 := by
  have h : (initBuildModel false).handleEvent (NixEvent.startCopyPath 7 storePath47 "") =
      some (({ initBuildModel false with downloads := [(7, { name := "pkg" })] }
        : buildModel), [TCmd.feature 7 "download"]) := by decide
  refine ⟨(({ initBuildModel false with downloads := [(7, { name := "pkg" })] }
      : buildModel), [TCmd.feature 7 "download"]), ?_, ?_, ?_⟩
  · exact AsyncReach.step _ _ (AsyncReach.init false)
      (AsyncStep.ev _ [] _ _ _ h)
  · decide
  · rfl

/-- C1 (amended): with every feature command delivered immediately (the
synchronous-delivery reading of the state machine) and all item ids nonzero
(as nix allocates them), every reachable state of the build reporter, and of
the copy reporter in non-verbose mode, features exactly one live item when
the active set is non-empty and none when it is empty.  The verbose copy
reporter is excluded: its stop handler returns before the rotation logic. -/
theorem c1_featured_item_invariant :
    (∀ (v : Bool) (tr : List SyncMsg) (m1 : buildModel),
        (∀ s ∈ tr, msgOK s) →
        (initBuildModel v).runSync tr = some m1 →
        ((m1.builds = [] ∧ m1.downloads = []) ↔ m1.featuredID = 0) ∧
        (m1.featuredID ≠ 0 → m1.isFeaturedActive = true)) ∧
    (∀ (tr : List SyncMsg) (m1 : copyModel),
        (∀ s ∈ tr, msgOK s) →
        (initCopyModel false).runSync tr = m1 →
        (m1.copies = [] ↔ m1.featuredID = 0) ∧
        (m1.featuredID ≠ 0 → (mlookup m1.copies m1.featuredID).isSome = true)) := by
  constructor
  · intro v tr m1 hok hrun
    have hinv := Inv_runSync tr (initBuildModel v) m1 hok (Inv_initBuildModel v) hrun
    refine ⟨⟨fun he => featured_zero_of_empty m1 hinv he.1 he.2, hinv.1⟩, ?_⟩
    intro h
    exact (hinv.2.1 h).1
  · intro tr m1 hok hrun
    have hinv : m1.Inv := by
      rw [← hrun]
      exact copy_Inv_runSync tr (initCopyModel false) hok copy_Inv_initCopyModel
    refine ⟨⟨fun he => copy_featured_zero_of_empty m1 hinv he, hinv.2.1⟩, hinv.2.2.1⟩

/-- C1 witness: the amended invariant applied to a concrete one-event trace
that starts build 3. -/
theorem c1_witness :
    ∃ m1 : buildModel,
      (initBuildModel false).runSync [SyncMsg.nev (NixEvent.startBuild 3 drvPath51) 0] =
        some m1 ∧
      (((m1.builds = [] ∧ m1.downloads = []) ↔ m1.featuredID = 0) ∧
       (m1.featuredID ≠ 0 → m1.isFeaturedActive = true)) := by
  refine ⟨_, rfl, c1_featured_item_invariant.1 false
    [SyncMsg.nev (NixEvent.startBuild 3 drvPath51) 0] _ ?_ rfl⟩
  intro s hs
  rcases List.mem_cons.mp hs with hs | hs
  · subst hs
    show (3 : Int) ≠ 0
    decide
  · cases hs

/-- C2: processing a Stop event whose id has no live item (not in the builds,
downloads/copies or transfers maps, and not the featured id, which for
reachable states follows from the id never having started) changes nothing
except the message-clearing bookkeeping and emits no commands; totality of
the handler in the embedding reflects that the Go code cannot panic here. -/
theorem c2_stop_unknown_noop :
    (∀ (m : buildModel) (id : Int),
        mlookup m.builds id = none → mlookup m.downloads id = none →
        mlookup m.transfers id = none → m.featuredID ≠ id →
        m.handleStopEvent id =
          ({ m with lastMsg := if m.initialized && misEmpty m.builds && misEmpty m.downloads then "" else m.lastMsg }, [])) ∧
    (∀ (m : copyModel) (id : Int),
        mlookup m.copies id = none → mlookup m.transfers id = none →
        m.featuredID ≠ id →
        m.handleStopEvent id =
          ({ m with lastMsg := if m.initialized && misEmpty m.copies then "" else m.lastMsg }, [])) := by
  constructor
  · intro m id hb hd ht hf
    have h2 : m.stopRemove id = m := by
      unfold buildModel.stopRemove
      simp only [hd, merase_of_lookup_none m.builds id hb,
        merase_of_lookup_none m.transfers id ht]
    unfold buildModel.handleStopEvent buildModel.stopFeatureHandle
    rw [h2, if_neg (fun hh => hf hh)]
    by_cases hcond : (m.initialized && misEmpty m.builds && misEmpty m.downloads) = true
    · simp [buildModel.clearIfDone, hcond]
    · simp [buildModel.clearIfDone, hcond]
  · intro m id hc ht hf
    unfold copyModel.handleStopEvent
    rw [hc]
    unfold copyModel.stopTail
    have h1 : ({ m with transfers := merase m.transfers id } : copyModel) = m := by
      simp only [merase_of_lookup_none m.transfers id ht]
    rw [h1, if_neg (fun hh => hf hh)]
    by_cases hcond : (m.initialized && misEmpty m.copies) = true
    · simp [copyModel.clearIfDone, hcond]
    · simp [copyModel.clearIfDone, hcond]

/-- C2 witness: both no-op equations evaluated at the initial models and the
unseen id 5. -/
theorem c2_witness :
    (initBuildModel false).handleStopEvent 5 =
      ({ initBuildModel false with lastMsg := if (initBuildModel false).initialized && misEmpty (initBuildModel false).builds && misEmpty (initBuildModel false).downloads then "" else (initBuildModel false).lastMsg }, []) ∧
    (initCopyModel false).handleStopEvent 5 =
      ({ initCopyModel false with lastMsg := if (initCopyModel false).initialized && misEmpty (initCopyModel false).copies then "" else (initCopyModel false).lastMsg }, []) :=
  ⟨c2_stop_unknown_noop.1 (initBuildModel false) 5 rfl rfl rfl (by decide),
   c2_stop_unknown_noop.2 (initCopyModel false) 5 rfl rfl (by decide)⟩

/-- C3: a rotation-check tick arriving before the featured item has been
held for minFeatureDuration leaves the featured item untouched, while a Stop
event for the featured item replaces it at once, at the delivery time of the
emitted feature command, with no dwell-time condition at all. -/
theorem c3_dwell_time :
    (∀ (m : buildModel) (now : Int), m.featuredID ≠ 0 →
        now - m.featuredSince < minFeatureDuration →
        (m.handleRotationCheck now).1.featuredID = m.featuredID ∧
        (m.handleRotationCheck now).1.featuredKind = m.featuredKind ∧
        (m.handleRotationCheck now).1.featuredSince = m.featuredSince) ∧
    (∀ (m m1 : buildModel) (id t nid : Int) (k : String),
        m.featuredID = id →
        (m.stopRemove id).selectNextActive = some (nid, k) →
        m.syncStep (.nev (.stop id) t) = some m1 →
        m1.featuredID = nid ∧ m1.featuredKind = k ∧ m1.featuredSince = t) := by
  constructor
  · intro m now _ hlt
    have hcond : ¬(({ m with rotationPending := false } : buildModel).featuredID ≠ 0 ∧
        minFeatureDuration ≤ now - ({ m with rotationPending := false }
          : buildModel).featuredSince) := by
      intro hand
      exact absurd hand.2 (not_le.mpr hlt)
    unfold buildModel.handleRotationCheck
    have hcore : buildModel.rotationCore ({ m with rotationPending := false }
        : buildModel) now = ({ m with rotationPending := false } : buildModel) := by
      unfold buildModel.rotationCore
      rw [if_neg hcond]
    rw [hcore]
    unfold buildModel.scheduleAfterRotation
    split <;> exact ⟨rfl, rfl, rfl⟩
  · intro m m1 id t nid k hfeat hsel hstep
    have heq : m.syncStep (.nev (.stop id) t) =
        some (buildModel.deliverFeatures (m.handleStopEvent id).1
          (m.handleStopEvent id).2 t) := rfl
    rw [heq] at hstep
    injection hstep with h
    subst h
    unfold buildModel.handleStopEvent buildModel.stopFeatureHandle
    rw [if_pos (by rw [(stopRemove_featured m id).1]; exact hfeat)]
    simp only [hsel, deliverFeatures_feature]
    exact ⟨rfl, rfl, rfl⟩

/-- wm3 is a state with two live builds, build 1 featured since time 0. -/
def wm3 : buildModel :=
  { initBuildModel false with
      builds := [(1, { name := "one" }), (2, { name := "two" })],
      featuredID := 1, featuredKind := "build", featuredSince := 0 }

/-- C3 witness: at wm3 a tick at 50ms does not rotate, and a Stop of build 1
refeatures build 2 immediately at the command's delivery time 7. -/
theorem c3_witness :
    ((wm3.handleRotationCheck 50000000).1.featuredID = wm3.featuredID ∧
     (wm3.handleRotationCheck 50000000).1.featuredKind = wm3.featuredKind ∧
     (wm3.handleRotationCheck 50000000).1.featuredSince = wm3.featuredSince) ∧
    (∃ m1 : buildModel, wm3.syncStep (.nev (.stop 1) 7) = some m1 ∧
      m1.featuredID = 2 ∧ m1.featuredKind = "build" ∧ m1.featuredSince = 7) := by
  constructor
  · exact c3_dwell_time.1 wm3 50000000 (by decide) (by decide)
  · exact ⟨_, rfl, c3_dwell_time.2 wm3 _ 1 7 2 "build" rfl (by decide) rfl⟩

theorem deliverFeatures_errs (mm : buildModel) (cs : List TCmd) (t : Int) :
    (buildModel.deliverFeatures mm cs t).errs = mm.errs := by
  induction cs generalizing mm with
  | nil => rfl
  | cons c rest ih =>
      cases c with
      | feature id k => exact ih (mm.applyFeature id k t)
      | println s => exact ih mm
      | printf s => exact ih mm
      | tick => exact ih mm

theorem stopRemove_errs (m : buildModel) (id : Int) :
    (m.stopRemove id).errs = m.errs := by
  unfold buildModel.stopRemove
  cases hl : mlookup m.downloads id <;> simp [hl]

theorem clearIfDone_errs (m : buildModel) :
    (m.clearIfDone).errs = m.errs := by
  unfold buildModel.clearIfDone
  split <;> rfl

theorem handleStopEvent_errs (m : buildModel) (id : Int) :
    ((m.handleStopEvent id).1).errs = m.errs := by
  unfold buildModel.handleStopEvent buildModel.stopFeatureHandle
  split
  · split
    · exact stopRemove_errs m id
    · rw [clearIfDone_errs]
      exact stopRemove_errs m id
  · rw [clearIfDone_errs]
    exact stopRemove_errs m id

theorem handleResultEvent_errs (m : buildModel) (e : NixEvent) :
    ((m.handleResultEvent e).1).errs = m.errs := by
  unfold buildModel.handleResultEvent
  repeat' split
  all_goals try rfl
  all_goals (dsimp only; split <;> rfl)

theorem rotationCore_errs (m : buildModel) (now : Int) :
    (m.rotationCore now).errs = m.errs := by
  unfold buildModel.rotationCore
  repeat' split
  all_goals rfl

theorem handleRotationCheck_errs (m : buildModel) (now : Int) :
    ((m.handleRotationCheck now).1).errs = m.errs := by
  unfold buildModel.handleRotationCheck buildModel.scheduleAfterRotation
  split
  · exact rotationCore_errs _ now
  · exact rotationCore_errs _ now

/-- eventErrorText collects the error texts the build reporter accumulates
from one message: error level and not a Lix trace warning. -/
def eventErrorText : SyncMsg → List String
  | .nev (NixEvent.message level text) _ =>
      if level = msgLevelError ∧ isTraceWarning text = false then [text] else []
  | _ => []

/-- trErrors is the list of all accumulated error texts of a trace, in order. -/
def trErrors : List SyncMsg → List String
  | [] => []
  | s :: rest => eventErrorText s ++ trErrors rest

theorem handleEvent_errs (m : buildModel) (e : NixEvent) (t : Int)
    (r : buildModel × List TCmd) (hr : m.handleEvent e = some r) :
    r.1.errs = m.errs ++ eventErrorText (.nev e t) := by
  cases e with
  | startCopyPaths id =>
      injection hr with h
      subst h
      simp [eventErrorText]
  | startBuilds id =>
      injection hr with h
      subst h
      simp [eventErrorText]
  | startRealise id =>
      injection hr with h
      subst h
      simp [eventErrorText]
  | startCopyPath id path text =>
      cases hex : extractName path with
      | none =>
          simp [buildModel.handleEvent, buildModel.handleStartEvent, hex] at hr
      | some nm =>
          simp only [buildModel.handleEvent, buildModel.handleStartEvent, hex] at hr
          split at hr
          · injection hr with h; subst h; simp [eventErrorText]
          · split at hr
            · injection hr with h; subst h; simp [eventErrorText]
            · injection hr with h; subst h; simp [eventErrorText]
  | startFileTransfer id parent =>
      simp only [buildModel.handleEvent, buildModel.handleStartEvent] at hr
      split at hr
      · injection hr with h; subst h; simp [eventErrorText]
      · injection hr with h; subst h; simp [eventErrorText]
  | startBuild id path =>
      cases hex : extractName path with
      | none =>
          simp [buildModel.handleEvent, buildModel.handleStartEvent, hex] at hr
      | some nm =>
          simp only [buildModel.handleEvent, buildModel.handleStartEvent, hex] at hr
          split at hr
          · injection hr with h; subst h; simp [eventErrorText]
          · injection hr with h; subst h; simp [eventErrorText]
  | stop id =>
      injection hr with h
      subst h
      simp [eventErrorText, handleStopEvent_errs]
  | resultSetPhase id phase =>
      injection hr with h
      subst h
      simp [eventErrorText, handleResultEvent_errs]
  | resultProgress id done expected running =>
      injection hr with h
      subst h
      simp [eventErrorText, handleResultEvent_errs]
  | resultSetExpectedFileTransfer id expected =>
      injection hr with h
      subst h
      simp [eventErrorText, handleResultEvent_errs]
  | resultSetExpectedCopyPath id expected =>
      injection hr with h
      subst h
      simp [eventErrorText, handleResultEvent_errs]
  | resultBuildLogLine id text =>
      injection hr with h
      subst h
      simp [eventErrorText, handleResultEvent_errs]
  | message level text =>
      injection hr with h
      subst h
      show ((m.handleMessageEvent level text).1).errs = _
      unfold buildModel.handleMessageEvent
      by_cases hc : level = msgLevelError ∧ isTraceWarning text = false
      · rw [if_pos hc]
        simp [eventErrorText, hc]
      · rw [if_neg hc]
        split
        · simp [eventErrorText, hc]
        · simp [eventErrorText, hc]

theorem errs_syncStep (m m2 : buildModel) (s : SyncMsg)
    (hstep : m.syncStep s = some m2) :
    m2.errs = m.errs ++ eventErrorText s := by
  cases s with
  | rotationCheck now =>
      have heq : m.syncStep (.rotationCheck now) = some (m.handleRotationCheck now).1 := rfl
      rw [heq] at hstep
      injection hstep with h
      subst h
      simp [eventErrorText, handleRotationCheck_errs]
  | nev e t =>
      have heq : m.syncStep (.nev e t) =
          (m.handleEvent e).map
            (fun r => buildModel.deliverFeatures r.1 r.2 t) := rfl
      rw [heq] at hstep
      cases he : m.handleEvent e with
      | none => rw [he] at hstep; cases hstep
      | some r =>
          rw [he] at hstep
          injection hstep with h
          subst h
          rw [deliverFeatures_errs]
          exact handleEvent_errs m e t r he

theorem errs_runSync (tr : List SyncMsg) :
    ∀ (m m1 : buildModel), m.runSync tr = some m1 →
      m1.errs = m.errs ++ trErrors tr := by
  induction tr with
  | nil =>
      intro m m1 hrun
      unfold buildModel.runSync at hrun
      injection hrun with h
      subst h
      simp [trErrors]
  | cons s rest ih =>
      intro m m1 hrun
      unfold buildModel.runSync at hrun
      cases hs : m.syncStep s with
      | none => rw [hs] at hrun; cases hrun
      | some m2 =>
          rw [hs] at hrun
          rw [ih m2 m1 hrun, errs_syncStep m m2 s hs, trErrors]
          simp [List.append_assoc]

theorem copy_deliverFeatures_err (mm : copyModel) (cs : List TCmd) (t : Int) :
    (copyModel.deliverFeatures mm cs t).err = mm.err := by
  induction cs generalizing mm with
  | nil => rfl
  | cons c rest ih =>
      cases c with
      | feature id k => exact ih (mm.applyFeature id t)
      | println s => exact ih mm
      | printf s => exact ih mm
      | tick => exact ih mm

theorem copy_clearIfDone_err (m : copyModel) : (m.clearIfDone).err = m.err := by
  unfold copyModel.clearIfDone
  split <;> rfl

theorem copy_stopTail_err (m : copyModel) (id : Int) :
    ((m.stopTail id).1).err = m.err := by
  unfold copyModel.stopTail
  dsimp only
  split
  · split
    · rfl
    · exact copy_clearIfDone_err _
  · exact copy_clearIfDone_err _

theorem copy_handleStopEvent_err (m : copyModel) (id : Int) :
    ((m.handleStopEvent id).1).err = m.err := by
  unfold copyModel.handleStopEvent
  split
  · dsimp only
    split
    · rfl
    · exact copy_stopTail_err _ id
  · exact copy_stopTail_err _ id

theorem copy_updateCopy_err (m : copyModel) (evID key : Int) (c : copyEntry)
    (done expected : Int) :
    ((m.updateCopy evID key c done expected).1).err = m.err := by
  unfold copyModel.updateCopy
  dsimp only
  split <;> rfl

theorem copy_handleResultEvent_err (m : copyModel) (e : NixEvent) :
    ((m.handleResultEvent e).1).err = m.err := by
  unfold copyModel.handleResultEvent
  repeat' split
  all_goals try rfl
  all_goals exact copy_updateCopy_err _ _ _ _ _ _

theorem copy_rotationCore_err (m : copyModel) (now : Int) :
    (m.rotationCore now).err = m.err := by
  unfold copyModel.rotationCore
  repeat' split
  all_goals rfl

theorem copy_handleRotationCheck_err (m : copyModel) (now : Int) :
    ((m.handleRotationCheck now).1).err = m.err := by
  unfold copyModel.handleRotationCheck copyModel.scheduleAfterRotation
  split
  · exact copy_rotationCore_err _ now
  · exact copy_rotationCore_err _ now

/-- stepErr is the copy reporter's error evolution on one message: a level-0
message overwrites the stored error, everything else keeps it. -/
def stepErr (acc : Option String) : SyncMsg → Option String
  | .nev (NixEvent.message level text) _ => if level = 0 then some text else acc
  | _ => acc

/-- lastErr folds stepErr over a trace: the last error-severity text wins. -/
def lastErr : Option String → List SyncMsg → Option String
  | acc, [] => acc
  | acc, s :: rest => lastErr (stepErr acc s) rest

theorem copy_err_syncStep (m : copyModel) (s : SyncMsg) :
    (m.syncStep s).err = stepErr m.err s := by
  cases s with
  | rotationCheck now => exact copy_handleRotationCheck_err m now
  | nev e t =>
      have heq : m.syncStep (.nev e t) =
          copyModel.deliverFeatures (m.handleEvent e).1 (m.handleEvent e).2 t := rfl
      rw [heq, copy_deliverFeatures_err]
      cases e with
      | startCopyPaths id => rfl
      | startBuilds id => rfl
      | startRealise id => rfl
      | startBuild id path => rfl
      | startCopyPath id path text =>
          show ((m.handleStartEvent (.startCopyPath id path text)).1).err = m.err
          unfold copyModel.handleStartEvent
          dsimp only
          split
          · rfl
          · split <;> rfl
      | startFileTransfer id parent =>
          show ((m.handleStartEvent (.startFileTransfer id parent)).1).err = m.err
          unfold copyModel.handleStartEvent
          dsimp only
          split <;> rfl
      | stop id => exact copy_handleStopEvent_err m id
      | resultSetPhase id phase => rfl
      | resultProgress id done expected running =>
          exact copy_handleResultEvent_err m _
      | resultSetExpectedFileTransfer id expected =>
          exact copy_handleResultEvent_err m _
      | resultSetExpectedCopyPath id expected =>
          exact copy_handleResultEvent_err m _
      | resultBuildLogLine id text =>
          exact copy_handleResultEvent_err m _
      | message level text =>
          show ((m.handleMessageEvent level text).1).err = _
          unfold copyModel.handleMessageEvent
          by_cases hl : level = 0
          · rw [if_pos hl]
            show some text = stepErr m.err (.nev (.message level text) t)
            unfold stepErr
            dsimp only
            rw [if_pos hl]
          · rw [if_neg hl]
            have hrhs : stepErr m.err (.nev (.message level text) t) = m.err := by
              unfold stepErr
              dsimp only
              rw [if_neg hl]
            rw [hrhs]
            split <;> rfl

theorem copy_err_runSync (tr : List SyncMsg) :
    ∀ (m : copyModel), (m.runSync tr).err = lastErr m.err tr := by
  induction tr with
  | nil => intro m; rfl
  | cons s rest ih =>
      intro m
      show ((m.syncStep s).runSync rest).err = lastErr (stepErr m.err s) rest
      rw [ih (m.syncStep s), copy_err_syncStep]

/-- C7 (as stated, refuted): the copy reporter keeps only the most recent
error-severity message, so after two level-0 messages the returned error is
the second text alone and does not mention the first; the build reporter
additionally drops error-severity Lix trace warnings entirely. -/
theorem c7_counterexample :
    ((initCopyModel false).runSync
        [SyncMsg.nev (NixEvent.message 0 "first failure") 0,
         SyncMsg.nev (NixEvent.message 0 "second failure") 0]).err =
      some "second failure" ∧
    containsSubstr "second failure" "first failure" = false ∧
    ((initBuildModel false).runSync
        [SyncMsg.nev (NixEvent.message 0 "trace: x warning: y") 0]).map
      (fun m => m.errs) = some [] := by
  refine ⟨rfl, by decide, by decide⟩

/-- C7 (amended): the build reporter accumulates, without terminating, every
error-severity (level 0) message that is not a Lix trace warning, and its
returned error is the join of exactly those texts in arrival order; the copy
reporter instead retains only the most recent error-severity text. -/
theorem c7_error_accumulation :
    (∀ (v : Bool) (tr : List SyncMsg) (m1 : buildModel),
        (initBuildModel v).runSync tr = some m1 →
        m1.errs = trErrors tr ∧
        m1.errorResult = (if trErrors tr = [] then none else some (trErrors tr))) ∧
    (∀ (v : Bool) (tr : List SyncMsg),
        ((initCopyModel v).runSync tr).err = lastErr none tr) := by
  constructor
  · intro v tr m1 hrun
    have h := errs_runSync tr (initBuildModel v) m1 hrun
    have h2 : m1.errs = trErrors tr := by simpa using h
    constructor
    · exact h2
    · unfold buildModel.errorResult
      rw [h2]
  · intro v tr
    exact copy_err_runSync tr (initCopyModel v)

/-- tr7 is a trace with two real errors, one warning and one trace warning. -/
def tr7 : List SyncMsg :=
  [SyncMsg.nev (NixEvent.message 0 "boom") 0,
   SyncMsg.nev (NixEvent.message 1 "warned") 0,
   SyncMsg.nev (NixEvent.message 0 "trace: z warning: w") 0,
   SyncMsg.nev (NixEvent.message 0 "crash") 0]

/-- C7 witness: the amended statement applied to tr7; both real errors are
kept, in order, and joined into the returned error. -/
theorem c7_witness :
    ∃ m1 : buildModel,
      (initBuildModel false).runSync tr7 = some m1 ∧
      m1.errs = trErrors tr7 ∧
      m1.errorResult = (if trErrors tr7 = [] then none else some (trErrors tr7)) := by
  refine ⟨_, rfl, (c7_error_accumulation.1 false tr7 _ rfl).1,
    (c7_error_accumulation.1 false tr7 _ rfl).2⟩

theorem mlookup_none_of_keys {V : Type} (xs : MapL V) (c : Int)
    (h : ∀ p ∈ xs, p.1 ≠ c) : mlookup xs c = none := by
  induction xs with
  | nil => rfl
  | cons p rest ih =>
      obtain ⟨k, w⟩ := p
      have hk : k ≠ c := h (k, w) (List.mem_cons_self _ _)
      simp only [mlookup, if_neg hk]
      exact ih (fun q hq => h q (List.mem_cons_of_mem _ hq))

/-- NodupKeys is the well-formedness every state reachable from an empty map
enjoys: minsert replaces in place, so keys never repeat. -/
def NodupKeys {V : Type} (xs : MapL V) : Prop := (xs.map Prod.fst).Nodup

theorem nodupKeys_nil {V : Type} : NodupKeys ([] : MapL V) := List.nodup_nil

theorem nodupKeys_minsert {V : Type} (xs : MapL V) (i : Int) (v : V)
    (h : NodupKeys xs) : NodupKeys (minsert xs i v) := by
  induction xs with
  | nil => simp [minsert, NodupKeys]
  | cons p rest ih =>
      obtain ⟨k, w⟩ := p
      simp only [NodupKeys, List.map_cons, List.nodup_cons] at h
      by_cases hk : k = i
      · subst hk
        have hred : minsert ((k, w) :: rest) k v = (k, v) :: rest := by
          simp [minsert]
        rw [hred]
        simp only [NodupKeys, List.map_cons, List.nodup_cons]
        exact h
      · simp only [minsert, if_neg hk, NodupKeys, List.map_cons, List.nodup_cons]
        refine ⟨?_, ih h.2⟩
        intro hmem
        rcases List.mem_map.mp hmem with ⟨q, hq, hq1⟩
        rcases mem_minsert rest i v q hq with hmem2 | hmem2
        · exact h.1 (List.mem_map.mpr ⟨q, hmem2, hq1⟩)
        · rw [hmem2] at hq1
          exact hk hq1.symm

theorem nodupKeys_merase {V : Type} (xs : MapL V) (i : Int)
    (h : NodupKeys xs) : NodupKeys (merase xs i) := by
  induction xs with
  | nil => exact h
  | cons p rest ih =>
      obtain ⟨k, w⟩ := p
      simp only [NodupKeys, List.map_cons, List.nodup_cons] at h
      by_cases hk : k = i
      · simp only [merase, if_pos hk]
        exact ih h.2
      · simp only [merase, if_neg hk, NodupKeys, List.map_cons, List.nodup_cons]
        refine ⟨?_, ih h.2⟩
        intro hmem
        rcases List.mem_map.mp hmem with ⟨q, hq, hq1⟩
        exact h.1 (List.mem_map.mpr ⟨q, mem_merase rest i q hq, hq1⟩)

/-- copiesDone mirrors the copies done() method of tui.go: the sum of the
done bytes of all live entries. -/
def copiesDone : MapL copyEntry → Int
  | [] => 0
  | (_, c) :: rest => c.done + copiesDone rest

theorem copiesDone_minsert_not_mem (xs : MapL copyEntry) (i : Int)
    (v : copyEntry) (h : mlookup xs i = none) :
    copiesDone (minsert xs i v) = copiesDone xs + v.done := by
  induction xs with
  | nil => simp [minsert, copiesDone]
  | cons p rest ih =>
      obtain ⟨k, c⟩ := p
      by_cases hk : k = i
      · subst hk
        simp [mlookup] at h
      · simp only [mlookup, if_neg hk] at h
        simp only [minsert, if_neg hk, copiesDone]
        rw [ih h]
        omega

theorem copiesDone_minsert_mem (xs : MapL copyEntry) (i : Int)
    (d v : copyEntry) (h : mlookup xs i = some d) (hnd : NodupKeys xs) :
    copiesDone (minsert xs i v) = copiesDone xs - d.done + v.done := by
  induction xs with
  | nil => simp [mlookup] at h
  | cons p rest ih =>
      obtain ⟨k, c⟩ := p
      simp only [NodupKeys, List.map_cons, List.nodup_cons] at hnd
      by_cases hk : k = i
      · subst hk
        simp [mlookup] at h
        subst h
        have hred : minsert ((k, c) :: rest) k v = (k, v) :: rest := by
          simp [minsert]
        rw [hred]
        simp only [copiesDone]
        omega
      · simp only [mlookup, if_neg hk] at h
        simp only [minsert, if_neg hk, copiesDone]
        rw [ih h hnd.2]
        omega

theorem copiesDone_merase_mem (xs : MapL copyEntry) (i : Int)
    (d : copyEntry) (h : mlookup xs i = some d) (hnd : NodupKeys xs) :
    copiesDone (merase xs i) = copiesDone xs - d.done := by
  induction xs with
  | nil => simp [mlookup] at h
  | cons p rest ih =>
      obtain ⟨k, c⟩ := p
      simp only [NodupKeys, List.map_cons, List.nodup_cons] at hnd
      by_cases hk : k = i
      · subst hk
        simp [mlookup] at h
        subst h
        have hred : merase ((k, c) :: rest) k = merase rest k := by
          simp [merase]
        rw [hred]
        have hnone : mlookup rest k = none := by
          apply mlookup_none_of_keys
          intro q hq hqk
          exact hnd.1 (List.mem_map.mpr ⟨q, hq, hqk⟩)
        rw [merase_of_lookup_none rest k hnone]
        simp only [copiesDone]
        omega
      · simp only [mlookup, if_neg hk] at h
        simp only [merase, if_neg hk, copiesDone]
        rw [ih h hnd.2]
        omega

theorem bounds_minsert (xs : MapL copyEntry) (i : Int) (v : copyEntry)
    (h : ∀ p ∈ xs, p.2.done ≤ p.2.total) (hv : v.done ≤ v.total) :
    ∀ p ∈ minsert xs i v, p.2.done ≤ p.2.total := by
  intro p hp
  rcases mem_minsert xs i v p hp with hp2 | hp2
  · exact h p hp2
  · rw [hp2]
    exact hv

theorem bounds_merase (xs : MapL copyEntry) (i : Int)
    (h : ∀ p ∈ xs, p.2.done ≤ p.2.total) :
    ∀ p ∈ merase xs i, p.2.done ≤ p.2.total := by
  intro p hp
  exact h p (mem_merase xs i p hp)

/-- dispBytes is the byte aggregate rendered by fmtDownloads:
realiseProgress.done plus the live downloads' done bytes. -/
def dispBytes (m : buildModel) : Int :=
  m.realiseProgress.done + copiesDone m.downloads

theorem clearIfDone_realise (m : buildModel) :
    (m.clearIfDone).realiseProgress = m.realiseProgress := by
  unfold buildModel.clearIfDone
  split <;> rfl

theorem handleStopEvent_downloads (m : buildModel) (id : Int) :
    ((m.handleStopEvent id).1).downloads = (m.stopRemove id).downloads := by
  unfold buildModel.handleStopEvent buildModel.stopFeatureHandle
  split
  · split
    · rfl
    · exact (clearIfDone_eq_fields _).2.1
  · exact (clearIfDone_eq_fields _).2.1

theorem handleStopEvent_realise (m : buildModel) (id : Int) :
    ((m.handleStopEvent id).1).realiseProgress = (m.stopRemove id).realiseProgress := by
  unfold buildModel.handleStopEvent buildModel.stopFeatureHandle
  split
  · split
    · rfl
    · exact clearIfDone_realise _
  · exact clearIfDone_realise _

/-- stepOkBytes is the side condition under which one decoded event cannot
shrink the displayed byte aggregate: progress writes to a live download must
not regress its done bytes and must stay within the reported expected total;
a single-download Start must be fresh; a realise batch Start may not discard
already-accumulated bytes. -/
def stepOkBytes (m : buildModel) : NixEvent → Prop
  | .resultProgress id done expected _ =>
      id = m.copyPathsProgress.id ∨ id = m.buildProgress.id ∨
      (match mlookup m.transfers id with
       | none => True
       | some parent =>
           match mlookup m.downloads parent with
           | none => True
           | some d => d.done ≤ done ∧ done ≤ expected)
  | .startCopyPath id _ _ => mlookup m.downloads id = none
  | .startRealise _ => m.realiseProgress.done = 0
  | _ => True

/-- C8 (amended): one event step never decreases the displayed byte
aggregate, given the well-formedness invariant (unique download keys, each
download's done within its total) and stepOkBytes; both are preserved, so
the bound chains over whole traces. -/
theorem c8_byte_aggregate_monotone (m : buildModel) (e : NixEvent)
    (r : buildModel × List TCmd)
    (hnd : NodupKeys m.downloads) (hb : ∀ p ∈ m.downloads, p.2.done ≤ p.2.total)
    (hok : stepOkBytes m e) (hr : m.handleEvent e = some r) :
    dispBytes m ≤ dispBytes r.1 ∧ NodupKeys r.1.downloads ∧
      ∀ p ∈ r.1.downloads, p.2.done ≤ p.2.total := by
  cases e with
  | startCopyPaths id =>
      injection hr with h
      subst h
      exact ⟨le_refl _, hnd, hb⟩
  | startBuilds id =>
      injection hr with h
      subst h
      exact ⟨le_refl _, hnd, hb⟩
  | startRealise id =>
      injection hr with h
      subst h
      have hok' : m.realiseProgress.done = 0 := hok
      refine ⟨?_, hnd, hb⟩
      show dispBytes m ≤ (0 : Int) + copiesDone m.downloads
      unfold dispBytes
      omega
  | startCopyPath id path text =>
      have hok' : mlookup m.downloads id = none := hok
      cases hex : extractName path with
      | none =>
          simp [buildModel.handleEvent, buildModel.handleStartEvent, hex] at hr
      | some nm =>
          have hd : r.1.downloads = minsert m.downloads id { name := nm } ∧
              r.1.realiseProgress = m.realiseProgress := by
            simp only [buildModel.handleEvent, buildModel.handleStartEvent, hex] at hr
            split at hr
            · injection hr with h; rw [← h]; exact ⟨rfl, rfl⟩
            · split at hr
              · injection hr with h; rw [← h]; exact ⟨rfl, rfl⟩
              · injection hr with h; rw [← h]; exact ⟨rfl, rfl⟩
          refine ⟨?_, ?_, ?_⟩
          · show dispBytes m ≤ r.1.realiseProgress.done + copiesDone r.1.downloads
            rw [hd.1, hd.2, copiesDone_minsert_not_mem m.downloads id _ hok']
            have hz : ({ name := nm } : copyEntry).done = 0 := rfl
            unfold dispBytes
            omega
          · rw [hd.1]
            exact nodupKeys_minsert _ _ _ hnd
          · rw [hd.1]
            exact bounds_minsert _ _ _ hb (le_refl (0 : Int))
  | startFileTransfer id parent =>
      have hd : r.1.downloads = m.downloads ∧
          r.1.realiseProgress = m.realiseProgress := by
        simp only [buildModel.handleEvent, buildModel.handleStartEvent] at hr
        split at hr
        · injection hr with h; rw [← h]; exact ⟨rfl, rfl⟩
        · injection hr with h; rw [← h]; exact ⟨rfl, rfl⟩
      refine ⟨?_, ?_, ?_⟩
      · show dispBytes m ≤ r.1.realiseProgress.done + copiesDone r.1.downloads
        rw [hd.1, hd.2]
        exact le_refl _
      · rw [hd.1]; exact hnd
      · rw [hd.1]; exact hb
  | startBuild id path =>
      cases hex : extractName path with
      | none =>
          simp [buildModel.handleEvent, buildModel.handleStartEvent, hex] at hr
      | some nm =>
          have hd : r.1.downloads = m.downloads ∧
              r.1.realiseProgress = m.realiseProgress := by
            simp only [buildModel.handleEvent, buildModel.handleStartEvent, hex] at hr
            split at hr
            · injection hr with h; rw [← h]; exact ⟨rfl, rfl⟩
            · injection hr with h; rw [← h]; exact ⟨rfl, rfl⟩
          refine ⟨?_, ?_, ?_⟩
          · show dispBytes m ≤ r.1.realiseProgress.done + copiesDone r.1.downloads
            rw [hd.1, hd.2]
            exact le_refl _
          · rw [hd.1]; exact hnd
          · rw [hd.1]; exact hb
  | stop id =>
      injection hr with h
      subst h
      have hdl := handleStopEvent_downloads m id
      have hre := handleStopEvent_realise m id
      cases hl : mlookup m.downloads id with
      | none =>
          have hsd : (m.stopRemove id).downloads = m.downloads := by
            rw [stopRemove_downloads, merase_of_lookup_none _ _ hl]
          have hsr : (m.stopRemove id).realiseProgress = m.realiseProgress := by
            unfold buildModel.stopRemove
            simp [hl]
          refine ⟨?_, ?_, ?_⟩
          · show dispBytes m ≤
              (m.handleStopEvent id).1.realiseProgress.done +
                copiesDone (m.handleStopEvent id).1.downloads
            rw [hdl, hre, hsd, hsr]
            exact le_refl _
          · rw [hdl, hsd]; exact hnd
          · rw [hdl, hsd]; exact hb
      | some d =>
          have hdle : d.done ≤ d.total := hb (id, d) (mem_of_mlookup _ _ _ hl)
          have hsd : (m.stopRemove id).downloads = merase m.downloads id :=
            stopRemove_downloads m id
          have hsr : (m.stopRemove id).realiseProgress.done =
              m.realiseProgress.done + d.total := by
            unfold buildModel.stopRemove
            simp [hl]
          refine ⟨?_, ?_, ?_⟩
          · show dispBytes m ≤
              (m.handleStopEvent id).1.realiseProgress.done +
                copiesDone (m.handleStopEvent id).1.downloads
            rw [hdl, hre, hsd, hsr, copiesDone_merase_mem m.downloads id d hl hnd]
            unfold dispBytes
            omega
          · rw [hdl, hsd]; exact nodupKeys_merase _ _ hnd
          · rw [hdl, hsd]; exact bounds_merase _ _ hb
  | resultSetPhase id phase =>
      injection hr with h
      subst h
      have hd : ((m.handleResultEvent (.resultSetPhase id phase)).1).downloads =
            m.downloads ∧
          ((m.handleResultEvent (.resultSetPhase id phase)).1).realiseProgress =
            m.realiseProgress := by
        unfold buildModel.handleResultEvent
        dsimp only
        split
        all_goals try exact ⟨rfl, rfl⟩
        all_goals ((try dsimp only); split <;> exact ⟨rfl, rfl⟩)
      refine ⟨?_, ?_, ?_⟩
      · show dispBytes m ≤ _
        unfold dispBytes
        rw [hd.1, hd.2]
        try exact le_refl _
      · rw [hd.1]; exact hnd
      · rw [hd.1]; exact hb
  | resultProgress id done expected running =>
      injection hr with h
      subst h
      by_cases hcp : id = m.copyPathsProgress.id
      · have hd : ((m.handleResultEvent (.resultProgress id done expected running)).1).downloads =
              m.downloads ∧
            ((m.handleResultEvent (.resultProgress id done expected running)).1).realiseProgress =
              m.realiseProgress := by
          unfold buildModel.handleResultEvent
          dsimp only
          rw [if_pos hcp]
          exact ⟨rfl, rfl⟩
        refine ⟨?_, ?_, ?_⟩
        · unfold dispBytes
          rw [hd.1, hd.2]
          try exact le_refl _
        · rw [hd.1]; exact hnd
        · rw [hd.1]; exact hb
      · by_cases hbp : id = m.buildProgress.id
        · have hd : ((m.handleResultEvent (.resultProgress id done expected running)).1).downloads =
                m.downloads ∧
              ((m.handleResultEvent (.resultProgress id done expected running)).1).realiseProgress =
                m.realiseProgress := by
            unfold buildModel.handleResultEvent
            dsimp only
            rw [if_neg hcp, if_pos hbp]
            exact ⟨rfl, rfl⟩
          refine ⟨?_, ?_, ?_⟩
          · unfold dispBytes
            rw [hd.1, hd.2]
            try exact le_refl _
          · rw [hd.1]; exact hnd
          · rw [hd.1]; exact hb
        · cases htr : mlookup m.transfers id with
          | none =>
              have hd : ((m.handleResultEvent (.resultProgress id done expected running)).1) = m := by
                unfold buildModel.handleResultEvent
                dsimp only
                rw [if_neg hcp, if_neg hbp, htr]
              rw [hd]
              exact ⟨le_refl _, hnd, hb⟩
          | some parent =>
              cases hdw : mlookup m.downloads parent with
              | none =>
                  have hd : ((m.handleResultEvent (.resultProgress id done expected running)).1) = m := by
                    unfold buildModel.handleResultEvent
                    dsimp only
                    rw [if_neg hcp, if_neg hbp, htr]
                    dsimp only
                    rw [hdw]
                  rw [hd]
                  exact ⟨le_refl _, hnd, hb⟩
              | some d =>
                  have hcond : d.done ≤ done ∧ done ≤ expected := by
                    rcases hok with h | h | h
                    · exact absurd h hcp
                    · exact absurd h hbp
                    · simp only [htr, hdw] at h
                      exact h
                  have hd : ((m.handleResultEvent (.resultProgress id done expected running)).1).downloads =
                        minsert m.downloads parent { d with done := done, total := expected } ∧
                      ((m.handleResultEvent (.resultProgress id done expected running)).1).realiseProgress =
                        m.realiseProgress := by
                    unfold buildModel.handleResultEvent
                    dsimp only
                    rw [if_neg hcp, if_neg hbp, htr]
                    dsimp only
                    rw [hdw]
                    dsimp only
                    split
                    · exact ⟨rfl, rfl⟩
                    · exact ⟨rfl, rfl⟩
                  refine ⟨?_, ?_, ?_⟩
                  · unfold dispBytes
                    rw [hd.1, hd.2,
                      copiesDone_minsert_mem m.downloads parent d _ hdw hnd]
                    have hdd : ({ d with done := done, total := expected }
                        : copyEntry).done = done := rfl
                    omega
                  · rw [hd.1]
                    exact nodupKeys_minsert _ _ _ hnd
                  · rw [hd.1]
                    refine bounds_minsert _ _ _ hb ?_
                    show done ≤ expected
                    exact hcond.2
  | resultSetExpectedFileTransfer id expected =>
      injection hr with h
      subst h
      have hd : ((m.handleResultEvent (.resultSetExpectedFileTransfer id expected)).1).downloads =
            m.downloads ∧
          ((m.handleResultEvent (.resultSetExpectedFileTransfer id expected)).1).realiseProgress.done =
            m.realiseProgress.done := by
        unfold buildModel.handleResultEvent
        dsimp only
        split
        · exact ⟨rfl, rfl⟩
        · exact ⟨rfl, rfl⟩
      refine ⟨?_, ?_, ?_⟩
      · unfold dispBytes
        rw [hd.1, hd.2]
        try exact le_refl _
      · rw [hd.1]; exact hnd
      · rw [hd.1]; exact hb
  | resultSetExpectedCopyPath id expected =>
      injection hr with h
      subst h
      exact ⟨le_refl _, hnd, hb⟩
  | resultBuildLogLine id text =>
      injection hr with h
      subst h
      have hd : ((m.handleResultEvent (.resultBuildLogLine id text)).1) = m := by
        unfold buildModel.handleResultEvent
        dsimp only
        split
        · split
          · rfl
          · rfl
        · rfl
      rw [hd]
      exact ⟨le_refl _, hnd, hb⟩
  | message level text =>
      injection hr with h
      subst h
      have hd : ((m.handleMessageEvent level text).1).downloads = m.downloads ∧
          ((m.handleMessageEvent level text).1).realiseProgress = m.realiseProgress := by
        unfold buildModel.handleMessageEvent
        split
        · exact ⟨rfl, rfl⟩
        · split
          · exact ⟨rfl, rfl⟩
          · exact ⟨rfl, rfl⟩
      refine ⟨?_, ?_, ?_⟩
      · unfold dispBytes
        rw [hd.1, hd.2]
        try exact le_refl _
      · rw [hd.1]; exact hnd
      · rw [hd.1]; exact hb

/-- tr8a starts download 7, attaches file transfer 8 and reports 5 of 3
bytes done: the per-id done values are trivially non-decreasing with a fixed
expected value, exactly the hypothesis of the claim. -/
def tr8a : List SyncMsg :=
  [SyncMsg.nev (NixEvent.startCopyPath 7 storePath47 "") 0,
   SyncMsg.nev (NixEvent.startFileTransfer 8 7) 0,
   SyncMsg.nev (NixEvent.resultProgress 8 5 3 0) 0]

/-- C8 (as stated, refuted): after tr8a the displayed aggregate is 5; the
Stop of download 7 rolls up only its reported total of 3, dropping the
aggregate from 5 to 3 even though every Result arrived with non-decreasing
done and fixed expected per id (the event reported done greater than
expected, which the code never guards against). -/
theorem c8_counterexample :
    ((initBuildModel false).runSync tr8a).map dispBytes = some 5 ∧
    ((initBuildModel false).runSync
        (tr8a ++ [SyncMsg.nev (NixEvent.stop 7) 0])).map dispBytes = some 3 ∧
    (3 : Int) < 5 := by
  refine ⟨rfl, rfl, by decide⟩

/-- wm8 is a state with one live download (1 of 3 bytes done) and its file
transfer. -/
def wm8 : buildModel :=
  { initBuildModel false with
      downloads := [(7, { name := "p", done := 1, total := 3 })],
      transfers := [(8, 7)] }

/-- C8 witness: the amended monotonicity applied to wm8 and an in-bounds
progress event for transfer 8. -/
theorem c8_witness :
    ∃ r : buildModel × List TCmd,
      wm8.handleEvent (NixEvent.resultProgress 8 2 3 0) = some r ∧
      dispBytes wm8 ≤ dispBytes r.1 ∧ NodupKeys r.1.downloads ∧
      ∀ p ∈ r.1.downloads, p.2.done ≤ p.2.total := by
  have hr : wm8.handleEvent (NixEvent.resultProgress 8 2 3 0) =
      some (wm8.handleResultEvent (NixEvent.resultProgress 8 2 3 0)) := rfl
  refine ⟨_, hr, c8_byte_aggregate_monotone wm8 _ _ ?_ ?_ ?_ hr⟩
  · show (List.map Prod.fst wm8.downloads).Nodup
    decide
  · intro p hp
    rcases List.mem_cons.mp hp with hp | hp
    · rw [hp]; decide
    · cases hp
  · right
    right
    exact (by decide : (1 : Int) ≤ 2 ∧ (2 : Int) ≤ 3)

/-- C10: extractName is Go's p[44:], total exactly on paths of at least 44
bytes (the "/nix/store/" prefix, 32-byte hash and dash); on shorter paths
the slice panics, which propagates through handleStartEvent for both
StartBuildEvent and StartCopyPathEvent (none in the embedding). -/
theorem c10_extractName_precondition :
    (∀ p : String, (extractName p).isSome = true ↔ 44 ≤ p.data.length) ∧
    (∀ (m : buildModel) (id : Int) (path : String),
        path.data.length < 44 → m.handleEvent (.startBuild id path) = none) ∧
    (∀ (m : buildModel) (id : Int) (path text : String),
        path.data.length < 44 → m.handleEvent (.startCopyPath id path text) = none) ∧
    (∀ (m : buildModel) (id : Int) (path : String),
        44 ≤ path.data.length → (m.handleEvent (.startBuild id path)).isSome = true) ∧
    (∀ (m : buildModel) (id : Int) (path text : String),
        44 ≤ path.data.length →
          (m.handleEvent (.startCopyPath id path text)).isSome = true) := by
  have hext : ∀ p : String, (extractName p).isSome = true ↔ 44 ≤ p.data.length := by
    intro p
    unfold extractName
    by_cases h : 44 ≤ p.data.length
    · simp [h]
    · simp [h]
  have hnone : ∀ p : String, p.data.length < 44 → extractName p = none := by
    intro p h
    unfold extractName
    rw [if_neg (not_le.mpr h)]
  have hsome : ∀ p : String, 44 ≤ p.data.length → ∃ nm, extractName p = some nm := by
    intro p h
    unfold extractName
    rw [if_pos h]
    exact ⟨_, rfl⟩
  refine ⟨hext, ?_, ?_, ?_, ?_⟩
  · intro m id path h
    show m.handleStartEvent (.startBuild id path) = none
    unfold buildModel.handleStartEvent
    dsimp only
    rw [hnone path h]
  · intro m id path text h
    show m.handleStartEvent (.startCopyPath id path text) = none
    unfold buildModel.handleStartEvent
    dsimp only
    rw [hnone path h]
  · intro m id path h
    obtain ⟨nm, hnm⟩ := hsome path h
    show (m.handleStartEvent (.startBuild id path)).isSome = true
    unfold buildModel.handleStartEvent
    dsimp only
    rw [hnm]
    dsimp only
    split <;> rfl
  · intro m id path text h
    obtain ⟨nm, hnm⟩ := hsome path h
    show (m.handleStartEvent (.startCopyPath id path text)).isSome = true
    unfold buildModel.handleStartEvent
    dsimp only
    rw [hnm]
    dsimp only
    split
    · rfl
    · split <;> rfl

/-- C10 witness: a 5-byte path panics (none), a 51-byte derivation path is
handled, at the initial model. -/
theorem c10_witness :
    (initBuildModel false).handleEvent (NixEvent.startBuild 9 "short") = none ∧
    ((initBuildModel false).handleEvent (NixEvent.startBuild 9 drvPath51)).isSome = true ∧
    ((extractName "short").isSome = true ↔ 44 ≤ ("short").data.length) :=
  ⟨c10_extractName_precondition.2.1 (initBuildModel false) 9 "short" (by decide),
   c10_extractName_precondition.2.2.2.1 (initBuildModel false) 9 drvPath51 (by decide),
   c10_extractName_precondition.1 "short"⟩

/-! ## SSH executor: PathExists (src/unnamed/part_009) -/

/-- RunResult is the outcome of cmd.Run() for the probe command `ls path`:
nil error (success), an ssh.ExitError carrying the remote exit status, or
any other error. -/
inductive RunResult where
  | success : RunResult
  | exitError (status : Int) : RunResult
  | otherError (msg : String) : RunResult
deriving DecidableEq, Repr

/-- sshExecutor.PathExists as written: runs `ls path`; nil error yields
(true, nil); an ssh.ExitError yields (ExitStatus() != 0, nil); any other
error is propagated. -/
def pathExists (run : RunResult) : Except String Bool :=
  match run with
  | .success => .ok true
  | .exitError status => .ok (decide (status ≠ 0))
  | .otherError msg => .error msg

/-- pathExistsSpec follows the claim: the probe completing with a non-zero
exit status because the path is absent yields (false, nil). -/
def pathExistsSpec (run : RunResult) : Except String Bool :=
  match run with
  | .success => .ok true
  | .exitError _ => .ok false
  | .otherError msg => .error msg

/-- C4 (code bug): the `eerr.ExitStatus() != 0` comparison is inverted.
ssh.ExitError is only produced for a non-zero remote exit status, so when
`ls path` exits 2 because the path is absent the code returns (true, nil)
where the claim (and pathExistsSpec) give (false, nil); indeed every
non-zero status makes the code report the path as existing. -/
theorem c4_pathExists_inverted :
    pathExists (RunResult.exitError 2) = .ok true ∧
    pathExistsSpec (RunResult.exitError 2) = .ok false ∧
    (∀ s : Int, s ≠ 0 → pathExists (RunResult.exitError s) = .ok true ∧
      pathExistsSpec (RunResult.exitError s) = .ok false) ∧
    pathExists RunResult.success = .ok true := by
  refine ⟨rfl, rfl, ?_, rfl⟩
  intro s hs
  exact ⟨by simp [pathExists, hs], rfl⟩

/-- C4 witness: the divergence at exit status 2 (path absent). -/
theorem c4_witness :
    pathExists (RunResult.exitError 2) = .ok true ∧
    pathExistsSpec (RunResult.exitError 2) = .ok false :=
  (c4_pathExists_inverted.2.2.1 2 (by decide))

/-! ## SSH command: sudo PTY and terminal restore (src/unnamed/part_009) -/

/-- CmdEnv fixes the environment a single sshCommand runs against: how
stdin is bound, the local terminal size, and which of the fallible calls
(term.MakeRaw, term.GetSize, Session.RequestPty, Session.Start,
Session.Wait) fail. -/
structure CmdEnv where
  stdinSet : Bool
  stdinIsFile : Bool
  stdinIsTerminal : Bool
  stdinFd : Int
  termWidth : Int
  termHeight : Int
  makeRawFails : Bool
  getSizeFails : Bool
  requestPtyFails : Bool
  startFails : Bool
  waitError : Option String
deriving Repr

/-- SSHWorld is the observable terminal/session state: whether the local
terminal is in raw mode, the PTY request sent on the session (term type,
height, width), and whether the session was closed. -/
structure SSHWorld where
  rawMode : Bool
  ptyReq : Option (String × Int × Int)
  sessionClosed : Bool
deriving Repr

/-- SSHCmd mirrors the sshCommand fields relevant here: the program name
and the saved terminal state (c.state / c.fd); a saved state records the
rawMode value term.MakeRaw captured. -/
structure SSHCmd where
  cmd : String
  fd : Int
  state : Option Bool
deriving Repr

/-- mkSSHCmd is the sshCommand constructed by CommandContext: fd -1,
state nil. -/
def mkSSHCmd (cmd : String) : SSHCmd :=
  { cmd := cmd, fd := -1, state := none }

/-- sessStart is c.sess.Start(cmd). -/
def sessStart (env : CmdEnv) (c : SSHCmd) (w : SSHWorld) :
    Except String Unit × SSHCmd × SSHWorld :=
  if env.startFails then (.error "start", c, w) else (.ok (), c, w)

/-- sshStart is sshCommand.Start: for "sudo" with stdin a file bound to a
real terminal it saves the terminal state via term.MakeRaw (entering raw
mode), reads the size via term.GetSize and requests an xterm-256color PTY
of that size, propagating each failure; for a file that is not a terminal
it requests a default 80x24 PTY and only logs a failure; then starts the
session command. -/
def sshStart (c : SSHCmd) (env : CmdEnv) (w : SSHWorld) :
    Except String Unit × SSHCmd × SSHWorld :=
  if c.cmd = "sudo" ∧ env.stdinSet = true then
    if env.stdinIsFile then
      if env.stdinIsTerminal then
        if env.makeRawFails then (.error "makeRaw", c, w)
        else
          let c1 : SSHCmd := { c with state := some w.rawMode, fd := env.stdinFd }
          let w1 : SSHWorld := { w with rawMode := true }
          if env.getSizeFails then (.error "getSize", c1, w1)
          else if env.requestPtyFails then (.error "requestPty", c1, w1)
          else
            sessStart env c1
              { w1 with ptyReq := some ("xterm-256color", env.termHeight, env.termWidth) }
      else
        if env.requestPtyFails then sessStart env c w
        else sessStart env c { w with ptyReq := some ("xterm-256color", 80, 24) }
    else sessStart env c w
  else sessStart env c w

/-- sshCleanup is sshCommand.cleanup: if a terminal state was saved it is
restored (term.Restore) and the saved state cleared; otherwise nothing. -/
def sshCleanup (c : SSHCmd) (w : SSHWorld) : SSHCmd × SSHWorld :=
  match c.state with
  | some st => ({ c with state := none }, { w with rawMode := st })
  | none => (c, w)

/-- sshWait is sshCommand.Wait: returns the session wait outcome, with
cleanup and session close deferred on every path. -/
def sshWait (c : SSHCmd) (env : CmdEnv) (w : SSHWorld) :
    Except String Unit × SSHCmd × SSHWorld :=
  let res : Except String Unit :=
    match env.waitError with
    | some e => .error e
    | none => .ok ()
  let p := sshCleanup c w
  (res, p.1, { p.2 with sessionClosed := true })

/-- sshRun is sshCommand.Run: Start, then Wait unless Start failed, with
cleanup deferred on every path. -/
def sshRun (c : SSHCmd) (env : CmdEnv) (w : SSHWorld) :
    Except String Unit × SSHCmd × SSHWorld :=
  let s := sshStart c env w
  let t :=
    match s.1 with
    | .error e => (Except.error e, s.2.1, s.2.2)
    | .ok _ => sshWait s.2.1 env s.2.2
  let p := sshCleanup t.2.1 t.2.2
  (t.1, p.1, p.2)

/-- C5: a "sudo" command with stdin bound to a real terminal enters raw
mode and requests a PTY sized to the caller's terminal on the successful
Start path; Run restores the terminal to its initial mode on every
environment (all failure combinations, including a non-zero remote exit
or wait error); Wait restores any saved terminal state and closes the
session regardless of the wait outcome. -/
theorem c5_sudo_pty_terminal_restore :
    (∀ (env : CmdEnv) (w : SSHWorld),
      env.stdinSet = true → env.stdinIsFile = true → env.stdinIsTerminal = true →
      env.makeRawFails = false → env.getSizeFails = false →
      env.requestPtyFails = false → env.startFails = false →
      (sshStart (mkSSHCmd "sudo") env w).2.2.rawMode = true ∧
      (sshStart (mkSSHCmd "sudo") env w).2.2.ptyReq =
        some ("xterm-256color", env.termHeight, env.termWidth) ∧
      (sshStart (mkSSHCmd "sudo") env w).1 = .ok ()) ∧
    (∀ (env : CmdEnv) (w : SSHWorld),
      (sshRun (mkSSHCmd "sudo") env w).2.2.rawMode = w.rawMode) ∧
    (∀ (env : CmdEnv) (c : SSHCmd) (w : SSHWorld) (st : Bool),
      c.state = some st →
      (sshWait c env w).2.2.rawMode = st ∧
      (sshWait c env w).2.2.sessionClosed = true ∧
      (sshWait c env w).2.1.state = none) := by
  refine ⟨?_, ?_, ?_⟩
  · intro env w hs hf ht hmr hgs hrp hst
    simp [sshStart, mkSSHCmd, sessStart, hs, hf, ht, hmr, hgs, hrp, hst]
  · intro env w
    obtain ⟨ss, sf, stt, fd, tw, th, mrf, gsf, rpf, stf, we⟩ := env
    obtain ⟨rm, pr, sc⟩ := w
    cases ss <;> cases sf <;> cases stt <;> cases mrf <;> cases gsf <;>
      cases rpf <;> cases stf <;> cases we <;>
      simp [sshRun, sshStart, sshWait, sshCleanup, sessStart, mkSSHCmd]
  · intro env c w st hst
    simp [sshWait, sshCleanup, hst]

/-- cenv5 is a concrete terminal environment: stdin a terminal file of
size 120x40, no local failures, the remote command failing at wait. -/
def cenv5 : CmdEnv :=
  { stdinSet := true, stdinIsFile := true, stdinIsTerminal := true,
    stdinFd := 0, termWidth := 120, termHeight := 40,
    makeRawFails := false, getSizeFails := false, requestPtyFails := false,
    startFails := false, waitError := some "exit status 1" }

/-- w5 is the initial world: cooked mode, no PTY, session open. -/
def w5 : SSHWorld := { rawMode := false, ptyReq := none, sessionClosed := false }

/-- cmd5raw is a command holding a saved cooked-mode terminal state, and
w5raw the world while raw mode is active. -/
def cmd5raw : SSHCmd := { cmd := "sudo", fd := 0, state := some false }

/-- w5raw: raw mode active, as after a successful sudo Start. -/
def w5raw : SSHWorld := { rawMode := true, ptyReq := none, sessionClosed := false }

/-- C5 witness: the three parts of the theorem at cenv5: Start enters raw
mode and requests a 40x120 PTY; Run restores cooked mode even though the
remote command fails; Wait restores the saved state and closes the
session. -/
theorem c5_witness :
    ((sshStart (mkSSHCmd "sudo") cenv5 w5).2.2.rawMode = true ∧
     (sshStart (mkSSHCmd "sudo") cenv5 w5).2.2.ptyReq =
       some ("xterm-256color", 40, 120) ∧
     (sshStart (mkSSHCmd "sudo") cenv5 w5).1 = .ok ()) ∧
    (sshRun (mkSSHCmd "sudo") cenv5 w5).2.2.rawMode = false ∧
    ((sshWait cmd5raw cenv5 w5raw).2.2.rawMode = false ∧
     (sshWait cmd5raw cenv5 w5raw).2.2.sessionClosed = true ∧
     (sshWait cmd5raw cenv5 w5raw).2.1.state = none) :=
  ⟨c5_sudo_pty_terminal_restore.1 cenv5 w5 rfl rfl rfl rfl rfl rfl rfl,
   c5_sudo_pty_terminal_restore.2.1 cenv5 w5,
   c5_sudo_pty_terminal_restore.2.2 cenv5 cmd5raw w5raw false rfl⟩

/-! ## SSH connection setup: auth fail-fast (src/unnamed/part_009) -/

/-- AuthMethod distinguishes the two methods configFromTarget installs:
the public-keys callback from buildDefaultConfig and the interactive
password callback. -/
inductive AuthMethod where
  | publicKeys : AuthMethod
  | password : AuthMethod
deriving DecidableEq, Repr

/-- ClientConfig keeps the ssh.ClientConfig fields the claim concerns. -/
structure ClientConfig where
  user : String
  auth : List AuthMethod
deriving DecidableEq, Repr

/-- SSHEnv fixes the local environment configFromTarget consults: whether
stdin is a terminal, the host's IdentitiesOnly setting, the keys the agent
yields (none models a load error or nil list, both ignored by the code),
and the identity files with the key each loads (none when unloadable). -/
structure SSHEnv where
  stdinIsTerminal : Bool
  identitiesOnly : Bool
  agentKeys : Option (List String)
  identityFiles : List (String × Option String)
deriving Repr

/-- gatherKeys is the pre-check key collection: agent keys unless
IdentitiesOnly (errors ignored), then every loadable identity file. -/
def gatherKeys (env : SSHEnv) : List String :=
  (if env.identitiesOnly then [] else env.agentKeys.getD []) ++
    env.identityFiles.filterMap Prod.snd

/-- noKeysMsg is the fmt.Errorf text of the fail-fast branch. -/
def noKeysMsg (user host : String) : String :=
  "no SSH keys found for " ++ user ++ "@" ++ host ++
    " (checked SSH agent and identity files) and password authentication is not available in non-terminal context. Please ensure SSH keys are available or run in a terminal"

/-- configFromTarget (auth-relevant slice; target/port parsing and
known-hosts loading are orthogonal and elided): buildDefaultConfig
installs the public-keys callback, a terminal appends the password
callback, and without a terminal and with only one auth method the key
pre-check runs, failing fast when it gathers nothing. -/
def configFromTarget (env : SSHEnv) (user host : String) :
    Except String ClientConfig :=
  let base : ClientConfig := { user := user, auth := [AuthMethod.publicKeys] }
  let config : ClientConfig :=
    if env.stdinIsTerminal then
      { base with auth := base.auth ++ [AuthMethod.password] }
    else base
  if env.stdinIsTerminal = false ∧ config.auth.length = 1 then
    if (gatherKeys env).length = 0 then .error (noKeysMsg user host)
    else .ok config
  else .ok config

/-- newSSHExecutor (setup slice): configFromTarget, then ssh.Dial; the
Bool records whether a dial was attempted. -/
def newSSHExecutor (env : SSHEnv) (user host : String) :
    Bool × Except String ClientConfig :=
  match configFromTarget env user host with
  | .error e => (false, .error e)
  | .ok conf => (true, .ok conf)

/-- C6: with no terminal on stdin and no usable key material (agent skipped
by IdentitiesOnly or yielding nothing, no loadable identity file),
connection setup returns the descriptive "no SSH keys found" error before
any dial attempt; with a terminal attached the password callback is
present as a fallback after the public-keys method. -/
theorem c6_auth_fail_fast :
    (∀ (env : SSHEnv) (user host : String),
      env.stdinIsTerminal = false →
      (env.identitiesOnly = true ∨ env.agentKeys.getD [] = []) →
      env.identityFiles.filterMap Prod.snd = [] →
      newSSHExecutor env user host = (false, .error (noKeysMsg user host))) ∧
    (∀ (env : SSHEnv) (user host : String),
      env.stdinIsTerminal = true →
      configFromTarget env user host =
        .ok { user := user, auth := [AuthMethod.publicKeys, AuthMethod.password] }) := by
  constructor
  · intro env user host hterm hkeys hfiles
    have hg : gatherKeys env = [] := by
      unfold gatherKeys
      rw [hfiles, List.append_nil]
      rcases hkeys with hio | hag
      · rw [if_pos hio]
      · cases hio : env.identitiesOnly
        · rw [if_neg (by simp), hag]
        · rw [if_pos rfl]
    unfold newSSHExecutor configFromTarget
    simp [hterm, hg]
  · intro env user host hterm
    unfold configFromTarget
    simp [hterm]

/-- envNoKeys: no terminal, agent unreachable, one unloadable file. -/
def envNoKeys : SSHEnv :=
  { stdinIsTerminal := false, identitiesOnly := false, agentKeys := none,
    identityFiles := [("~/.ssh/id_ed25519", none)] }

/-- envTerm: a terminal is attached to stdin. -/
def envTerm : SSHEnv :=
  { stdinIsTerminal := true, identitiesOnly := false, agentKeys := none,
    identityFiles := [] }

/-- C6 witness: a non-terminal environment with a dead agent and one
unloadable identity file fails fast; a terminal environment gets the
password fallback. -/
theorem c6_witness :
    newSSHExecutor envNoKeys "deploy" "example.com" =
      (false, .error (noKeysMsg "deploy" "example.com")) ∧
    configFromTarget envTerm "deploy" "example.com" =
      .ok { user := "deploy", auth := [AuthMethod.publicKeys, AuthMethod.password] } :=
  ⟨c6_auth_fail_fast.1 envNoKeys "deploy" "example.com" rfl (Or.inr rfl) rfl,
   c6_auth_fail_fast.2 envTerm "deploy" "example.com" rfl⟩

/-! ## Progress decoder (not present in src; modelled from the spec) -/

/-- Modelled from the spec: one read off the diagnostic stream — a line of
text, or the terminal condition (EOF is the end of the input list, a read
error an explicit item). -/
inductive ReadItem where
  | line (s : String) : ReadItem
  | readErr : ReadItem
deriving DecidableEq, Repr

/-- Modelled from the spec: isLine is true for a text line, false for the
read-error terminator. -/
def ReadItem.isLine : ReadItem → Bool
  | .line _ => true
  | .readErr => false

/-- Modelled from the spec: parseOf applies the envelope parser to a line
and nothing to the terminator. -/
def ReadItem.parseOf (parse : String → Option NixEvent) : ReadItem → Option NixEvent
  | .line s => parse s
  | .readErr => none

/-- Modelled from the spec: the decoder loop reads line by line, emits on
its channel each line the envelope parser accepts, silently drops each
line it rejects, and on EOF or a read error stops and closes the channel;
the result is the emitted events in order and whether the channel was
closed. -/
def runDecoder (parse : String → Option NixEvent) :
    List ReadItem → List NixEvent × Bool
  | [] => ([], true)
  | .readErr :: _ => ([], true)
  | .line s :: rest =>
    let r := runDecoder parse rest
    (match parse s with
     | some e => e :: r.1
     | none => r.1, r.2)

/-- C9: for every input stream and envelope parser the decoder closes its
channel (also on a read error, without panicking), and the delivered
events are exactly the parses of the lines read before the first read
error, in input order — unparseable lines are dropped, never failing the
stream. -/
theorem c9_decoder_robustness (parse : String → Option NixEvent)
    (input : List ReadItem) :
    (runDecoder parse input).2 = true ∧
    (runDecoder parse input).1 =
      (input.takeWhile ReadItem.isLine).filterMap (ReadItem.parseOf parse) := by
  induction input with
  | nil => exact ⟨rfl, rfl⟩
  | cons it rest ih =>
    cases it with
    | readErr => exact ⟨rfl, rfl⟩
    | line s =>
      refine ⟨ih.1, ?_⟩
      show (match parse s with
            | some e => e :: (runDecoder parse rest).1
            | none => (runDecoder parse rest).1) = _
      rw [ih.2]
      cases hp : parse s <;>
        simp [List.takeWhile, ReadItem.isLine, List.filterMap, ReadItem.parseOf, hp]
